import Mathlib

/-!
# DBC-Patcher: shallow embedding of the diff/patch core

This file embeds the diff/patch subsystem of the DBC-Patcher repository
(`dbc_patcher_app/core/{dbc_parser,diff_engine,patch_applier,ref_db}.py`)
into Lean 4 and settles the frozen claims about it.

Modelling conventions:
* Python `dict`s become insertion-ordered association lists; `dict.get`
  is `assocGet` (first match; keys are kept unique by `assocSet`).
* Python `None` becomes `Option.none`, or the `Value.vNone` constructor
  where a field value of any shape is expected (`changes` maps).
* Python `float` scale/offset values become `Rat`; the code only copies
  and compares them for equality, never does arithmetic on them.
* Python set iteration order is unspecified; where the code iterates a
  set (`clean_names - raw_names`, `raw_names & clean_names`) we fix
  first-occurrence order.  No claim depends on the order inside these
  groups.
* The cantools library round trips (`update_database_from_model`,
  `build_database_from_dict`, `insert_message_into_database` plus
  `_refresh_model`) are external collaborators; they are modelled at the
  descriptor level (see the doc comments on those definitions).
-/

namespace DBCPatcher

/-- A Python attribute value as it can appear in a patch rule's
`changes` map or in a signal field.  `vNone` is Python `None`. -/
inductive Value
  | vNone
  | vNat (n : Nat)
  | vStr (s : String)
  | vBool (b : Bool)
  | vRat (q : Rat)
  | vTable (t : List (String × String))
  | vList (l : List String)
  deriving DecidableEq, Repr

/-- The attributes of the `DBCSignal` dataclass (`dbc_parser.py`). -/
inductive Field
  | name | start_bit | length | byte_order | is_signed | scale | offset
  | minimum | maximum | unit | comment | value_table | multiplex
  | multiplexer_ids | receivers
  deriving DecidableEq, Repr

/-- `getattr`/`setattr` reach a dataclass attribute through its string
name; this is the attribute-name table of `DBCSignal`. -/
def fieldOfString : String → Option Field
  | "name" => some .name
  | "start_bit" => some .start_bit
  | "length" => some .length
  | "byte_order" => some .byte_order
  | "is_signed" => some .is_signed
  | "scale" => some .scale
  | "offset" => some .offset
  | "minimum" => some .minimum
  | "maximum" => some .maximum
  | "unit" => some .unit
  | "comment" => some .comment
  | "value_table" => some .value_table
  | "multiplex" => some .multiplex
  | "multiplexer_ids" => some .multiplexer_ids
  | "receivers" => some .receivers
  | _ => none

/-- `DBCSignal` dataclass of `dbc_parser.py`.  `start_bit`/`length` are
non-negative in every DBC file, so `Nat`; `scale`/`offset` are `Rat`
(see the header comment). -/
structure DBCSignal where
  name : String
  start_bit : Nat
  length : Nat
  byte_order : String
  is_signed : Bool
  scale : Rat
  offset : Rat
  minimum : Option Rat
  maximum : Option Rat
  unit : Option String
  comment : Option String
  value_table : List (String × String) := []
  multiplex : Option String := none
  multiplexer_ids : Option (List Nat) := none
  receivers : List String := []
  deriving DecidableEq, Repr

instance : Inhabited DBCSignal :=
  ⟨{ name := "", start_bit := 0, length := 0, byte_order := "", is_signed := false,
     scale := 1, offset := 0, minimum := none, maximum := none, unit := none,
     comment := none }⟩

def optRatVal : Option Rat → Value
  | none => .vNone
  | some q => .vRat q

def optStrVal : Option String → Value
  | none => .vNone
  | some s => .vStr s

/-- Read one attribute of a signal as a `Value` (typed view of
`getattr(signal, field)`). -/
def getF (s : DBCSignal) : Field → Value
  | .name => .vStr s.name
  | .start_bit => .vNat s.start_bit
  | .length => .vNat s.length
  | .byte_order => .vStr s.byte_order
  | .is_signed => .vBool s.is_signed
  | .scale => .vRat s.scale
  | .offset => .vRat s.offset
  | .minimum => optRatVal s.minimum
  | .maximum => optRatVal s.maximum
  | .unit => optStrVal s.unit
  | .comment => optStrVal s.comment
  | .value_table => .vTable s.value_table
  | .multiplex => optStrVal s.multiplex
  | .multiplexer_ids =>
      match s.multiplexer_ids with
      | none => .vNone
      | some l => .vList (l.map toString)
  | .receivers => .vList s.receivers

/-- Write one attribute of a signal (typed view of
`setattr(signal, field, v)`).  A value whose shape does not fit the
attribute's type is ignored; Python would store the ill-typed object,
which no code path covered by the claims ever produces. -/
def setF (s : DBCSignal) : Field → Value → DBCSignal
  | .name, .vStr x => { s with name := x }
  | .start_bit, .vNat n => { s with start_bit := n }
  | .length, .vNat n => { s with length := n }
  | .byte_order, .vStr x => { s with byte_order := x }
  | .is_signed, .vBool b => { s with is_signed := b }
  | .scale, .vRat q => { s with scale := q }
  | .offset, .vRat q => { s with offset := q }
  | .minimum, .vRat q => { s with minimum := some q }
  | .minimum, .vNone => { s with minimum := none }
  | .maximum, .vRat q => { s with maximum := some q }
  | .maximum, .vNone => { s with maximum := none }
  | .unit, .vStr x => { s with unit := some x }
  | .unit, .vNone => { s with unit := none }
  | .comment, .vStr x => { s with comment := some x }
  | .comment, .vNone => { s with comment := none }
  | .value_table, .vTable t => { s with value_table := t }
  | .multiplex, .vStr x => { s with multiplex := some x }
  | .multiplex, .vNone => { s with multiplex := none }
  | .receivers, .vList l => { s with receivers := l }
  | _, _ => s

/-- `getattr(signal, field, None)` with a string attribute name. -/
def DBCSignal.getField (s : DBCSignal) (f : String) : Value :=
  match fieldOfString f with
  | some fd => getF s fd
  | none => .vNone

/-- `setattr(signal, field, v)` with a string attribute name.  An
unknown name would create a fresh attribute on the Python object; it
never aliases a descriptor field, so it is dropped here. -/
def DBCSignal.setField (s : DBCSignal) (f : String) (v : Value) : DBCSignal :=
  match fieldOfString f with
  | some fd => setF s fd v
  | none => s

/-- `DBCMessage` dataclass of `dbc_parser.py`. -/
structure DBCMessage where
  message_id : Nat
  name : String
  length : Nat
  cycle_time : Option Nat := none
  comment : Option String := none
  is_extended_frame : Bool := false
  attributes : List (String × String) := []
  senders : List String := []
  signals : List DBCSignal := []
  deriving DecidableEq, Repr

/-- Lower-case hex digits. -/
def hexDigit (d : Nat) : Char :=
  if d < 10 then Char.ofNat (48 + d) else Char.ofNat (87 + d)

/-- Hex digit expansion, most significant first.  The first argument is
fuel (any bound above the value suffices; structural recursion keeps the
function kernel-computable). -/
def toHexAux : Nat → Nat → List Char
  | 0, _ => []
  | fuel + 1, n =>
      if n < 16 then [hexDigit n]
      else toHexAux fuel (n / 16) ++ [hexDigit (n % 16)]

/-- Python `hex(n)` for a non-negative `n`: `0x` prefix, lower case. -/
def natToHex (n : Nat) : String :=
  "0x" ++ String.mk (toHexAux (n + 1) n)

def hexDigitVal (c : Char) : Nat :=
  if 48 ≤ c.toNat ∧ c.toNat ≤ 57 then c.toNat - 48
  else if 97 ≤ c.toNat ∧ c.toNat ≤ 102 then c.toNat - 87
  else if 65 ≤ c.toNat ∧ c.toNat ≤ 70 then c.toNat - 55
  else 0

/-- Python `int(s, 16)`.  Total here: a malformed digit counts as 0,
whereas Python raises `ValueError`; every claim only parses strings
produced by `natToHex`, for which the two agree. -/
def hexToNat (s : String) : Nat :=
  let cs := s.toList
  let chars := if cs.take 2 = ['0', 'x'] ∨ cs.take 2 = ['0', 'X'] then cs.drop 2 else cs
  chars.foldl (fun acc c => acc * 16 + hexDigitVal c) 0

/-- `hex_id` property of `DBCMessage`. -/
def DBCMessage.hex_id (m : DBCMessage) : String := natToHex m.message_id

/-! ## Association lists: Python `dict` -/

section Assoc
variable {κ : Type} {α : Type} [DecidableEq κ]

/-- `d.get(k)`: first entry with the key (keys stay unique under
`assocSet`, so first = only). -/
def assocGet (l : List (κ × α)) (k : κ) : Option α :=
  (l.find? (fun p => p.1 = k)).map (·.2)

/-- `d[k] = v`: replace in place when the key exists, else append —
Python dicts keep the original position of an overwritten key. -/
def assocSet (l : List (κ × α)) (k : κ) (v : α) : List (κ × α) :=
  if l.any (fun p => p.1 = k) then
    l.map (fun p => if p.1 = k then (k, v) else p)
  else l ++ [(k, v)]

/-- `k in d`. -/
def assocHas (l : List (κ × α)) (k : κ) : Bool :=
  l.any (fun p => p.1 = k)

end Assoc

/-- `DBCModel` of `dbc_parser.py`: the grip the diff/patch core has on a
matrix snapshot is the insertion-ordered `messages` dict keyed by frame
id (the cantools `db` handle, source path and load timestamp play no
role in the claims). -/
structure DBCModel where
  messages : List (Nat × DBCMessage)
  version : String := ""
  nodes : List String := []
  deriving DecidableEq, Repr

def DBCModel.getMsg (m : DBCModel) (mid : Nat) : Option DBCMessage :=
  assocGet m.messages mid

def DBCModel.setMsg (m : DBCModel) (mid : Nat) (msg : DBCMessage) : DBCModel :=
  { m with messages := assocSet m.messages mid msg }

/-! ## Diff engine (`diff_engine.py`) -/

/-- The `signal_match` bit-position locator `{start_bit, length}`. -/
structure SignalMatch where
  start_bit : Nat
  length : Nat
  deriving DecidableEq, Repr

/-- One entry of a rule's `changes` map.  `fromVal = Value.vNone`
doubles for an absent `"from"` key: `dict.get("from")` returns `None`
in both cases and the applier only tests `expected is not None`. -/
structure Change where
  fromVal : Value
  toVal : Value
  deriving DecidableEq, Repr

/-- A patch rule as the applier consumes it (the JSON dict form of
`DiffRule.to_dict`, plus the optional embedded payload keys `signal`,
`message` and `name` that only hand-written rules carry).
`to_dict` drops falsy values (empty `signal_name`, empty `changes`);
we keep the fields and note that every handler re-checks falsiness, so
dropping the key and carrying a falsy value are indistinguishable. -/
structure PatchRule where
  op : String
  message_id : String
  signal_match : Option SignalMatch := none
  signal_name : Option String := none
  changes : List (String × Change) := []
  from_ref : Bool := false
  signal : Option DBCSignal := none
  message : Option DBCMessage := none
  name : Option String := none
  deriving DecidableEq, Repr

/-- The patch document.  The `created` ISO timestamp is an environment
input (wall clock) with no behavioural content and is omitted. -/
structure PatchDoc where
  version : Nat := 1
  rules : List PatchRule
  deriving DecidableEq, Repr

/-- The fixed signal attribute list of `DiffEngine._compare_signal`,
in source order. -/
def fieldList : List String :=
  ["name", "start_bit", "length", "byte_order", "is_signed", "scale",
   "offset", "minimum", "maximum", "unit", "comment", "value_table",
   "receivers"]

/-- The `DiffRule` dict shapes the engine emits, one constructor per
`op` (the applier's falsy re-checks make `to_dict`'s dropping of falsy
keys unobservable, see `PatchRule`). -/
def addSignalRule (message_id n : String) : PatchRule :=
  { op := "add_signal_if_missing", message_id := message_id, signal_name := some n }

def removeSignalRule (message_id n : String) : PatchRule :=
  { op := "remove_signal", message_id := message_id, signal_name := some n }

def sendersRule (message_id : String) (fromList toList : List String) : PatchRule :=
  { op := "update_message_senders", message_id := message_id,
    changes := [("senders", Change.mk (.vList fromList) (.vList toList))] }

def renameRule (message_id : String) (old : DBCSignal) (newName : String) : PatchRule :=
  { op := "rename_signal", message_id := message_id,
    signal_match := some ⟨old.start_bit, old.length⟩, signal_name := some newName }

def updateSignalRule (message_id : String) (raw_sig : DBCSignal)
    (chs : List (String × Change)) : PatchRule :=
  { op := "update_signal", message_id := message_id,
    signal_match := some ⟨raw_sig.start_bit, raw_sig.length⟩, changes := chs }

/-- The rule `generate_patch` emits for a message id present only in
the cleaned model. -/
def addMessageRule (i : Nat) : PatchRule :=
  { op := "add_message", message_id := natToHex i }

def removeMessageRule (i : Nat) : PatchRule :=
  { op := "remove_message", message_id := natToHex i }

/-- The change map `_compare_signal` collects. -/
def signalChanges (raw_sig clean_sig : DBCSignal) : List (String × Change) :=
  fieldList.filterMap (fun f =>
    let raw_val := raw_sig.getField f
    let clean_val := clean_sig.getField f
    if raw_val ≠ clean_val then some (f, Change.mk raw_val clean_val) else none)

/-- `DiffEngine._compare_signal`: one `update_signal` rule carrying an
entry per differing field, or nothing when no field differs. -/
def compare_signal (message : DBCMessage) (raw_sig clean_sig : DBCSignal) :
    List PatchRule :=
  let changes := signalChanges raw_sig clean_sig
  if changes = [] then []
  else [updateSignalRule message.hex_id raw_sig changes]

/-- `DiffEngine._detect_renames`: full cross product of the two signal
lists, keeping pairs with different names and identical
`(start_bit, length, byte_order)` triples. -/
def detect_renames (raw_signals clean_signals : List DBCSignal) :
    List (DBCSignal × DBCSignal) :=
  raw_signals.flatMap (fun raw_sig =>
    (clean_signals.filter (fun clean_sig =>
      raw_sig.name ≠ clean_sig.name ∧
      raw_sig.start_bit = clean_sig.start_bit ∧
      raw_sig.length = clean_sig.length ∧
      raw_sig.byte_order = clean_sig.byte_order)).map (fun clean_sig =>
        (raw_sig, clean_sig)))

/-- Keys of the `{s.name: s for s in signals}` comprehension, in Python
dict order: first occurrence of each name. -/
def sigNames : List DBCSignal → List String
  | [] => []
  | s :: rest =>
      let r := sigNames rest
      s.name :: r.filter (fun n => n ≠ s.name)

/-- Value lookup of the same comprehension: the last signal with the
name wins. -/
def sigByName (signals : List DBCSignal) (n : String) : Option DBCSignal :=
  signals.foldl (fun acc s => if s.name = n then some s else acc) none

/-- `DiffEngine._compare_message`.  Python iterates the hash-set
differences and intersection in unspecified order; we fix
first-occurrence order (cleaned order for additions, raw order for
removals and for the common names). -/
def compare_message (raw_msg clean_msg : DBCMessage) : List PatchRule :=
  let raw_names := sigNames raw_msg.signals
  let clean_names := sigNames clean_msg.signals
  let addRules := (clean_names.filter (fun n => ¬ raw_names.contains n)).map
    (addSignalRule clean_msg.hex_id)
  let removeRules := (raw_names.filter (fun n => ¬ clean_names.contains n)).map
    (removeSignalRule clean_msg.hex_id)
  let senderRules :=
    if raw_msg.senders ≠ clean_msg.senders then
      [sendersRule clean_msg.hex_id raw_msg.senders clean_msg.senders]
    else []
  let updateRules := (raw_names.filter (fun n => clean_names.contains n)).flatMap
    (fun n =>
      match sigByName raw_msg.signals n, sigByName clean_msg.signals n with
      | some rs, some cs => compare_signal raw_msg rs cs
      | _, _ => [])
  let renameRules := (detect_renames raw_msg.signals clean_msg.signals).map
    (fun p => renameRule clean_msg.hex_id p.1 p.2.name)
  addRules ++ removeRules ++ senderRules ++ updateRules ++ renameRules

/-- Ascending insertion into a sorted list. -/
def insertSorted (n : Nat) : List Nat → List Nat
  | [] => [n]
  | m :: ms => if n ≤ m then n :: m :: ms else m :: insertSorted n ms

/-- Python `sorted` on a list of ids. -/
def sortNat (l : List Nat) : List Nat := l.foldr insertSorted []

/-- `sorted(set_expression)`: Python sets deduplicate. -/
def sortedSet (l : List Nat) : List Nat := sortNat l.dedup

/-- `DiffEngine.generate_patch`. -/
def generate_patch (raw cleaned : DBCModel) : PatchDoc :=
  let raw_ids := raw.messages.map (·.1)
  let clean_ids := cleaned.messages.map (·.1)
  let addRules := (sortedSet (clean_ids.filter (fun i => ¬ raw_ids.contains i))).map
    addMessageRule
  let removeRules := (sortedSet (raw_ids.filter (fun i => ¬ clean_ids.contains i))).map
    removeMessageRule
  let commonRules := (sortedSet (clean_ids.filter (fun i => raw_ids.contains i))).flatMap
    (fun i =>
      match assocGet raw.messages i, assocGet cleaned.messages i with
      | some rm, some cm => compare_message rm cm
      | _, _ => [])
  { version := 1, rules := addRules ++ removeRules ++ commonRules }

/-! ## Reference catalog (`ref_db.py`)

The `path` member and the `load_ref`/`save_ref` JSON round trip are
file I/O and carry no behavioural content for the claims; the catalog
is its two in-memory dicts. -/

structure ReferenceDB where
  signals : List (String × DBCSignal) := []
  messages : List (String × DBCMessage) := []
  deriving DecidableEq, Repr

/-- `ReferenceDB._message_key`: the composite key `f"{frame_id}:{name}"`. -/
def message_key (frame_id : Nat) (name : String) : String :=
  toString frame_id ++ ":" ++ name

/-- `ReferenceDB._canonicalize_message`: a deep copy rebuilt field by
field (`deepcopy` is the identity on pure values). -/
def canonicalize_message (message : DBCMessage) : DBCMessage :=
  { message_id := message.message_id
    name := message.name
    length := message.length
    cycle_time := message.cycle_time
    comment := message.comment
    is_extended_frame := message.is_extended_frame
    attributes := message.attributes
    senders := message.senders
    signals := message.signals }

/-- `ReferenceDB.update_from_dbc` (minus the `save_ref` disk write):
every message of the model is stored under its composite key and its
bare name, every signal under its name, each assignment overwriting
unconditionally. -/
def ReferenceDB.update_from_dbc (db : ReferenceDB) (model : DBCModel) : ReferenceDB :=
  model.messages.foldl (fun db p =>
    let msg := p.2
    let canonical := canonicalize_message msg
    let msgs := assocSet (assocSet db.messages (message_key msg.message_id msg.name) canonical)
      msg.name canonical
    let sigs := msg.signals.foldl (fun acc sig => assocSet acc sig.name sig) db.signals
    { db with messages := msgs, signals := sigs }) db

/-- `ReferenceDB.suggest_for_signal`. -/
def ReferenceDB.suggest_for_signal (db : ReferenceDB) (signal_name : String) :
    Option DBCSignal :=
  assocGet db.signals signal_name

/-- `ReferenceDB.suggest_message`: composite key first, bare name as
fallback (`x or y` on dataclasses, which are always truthy). -/
def ReferenceDB.suggest_message (db : ReferenceDB) (frame_id : Nat) (name : String) :
    Option DBCMessage :=
  (assocGet db.messages (message_key frame_id name)).or (assocGet db.messages name)

/-! ## Patch applier (`patch_applier.py`) -/

/-- Handler verdict: `apply_patch` files the rule into one of its three
outcome lists according to this status. -/
inductive HandlerStatus
  | applied
  | skipped (reason : String)
  | conflict (reason : String)
  deriving DecidableEq, Repr

/-- Rendering of a value inside the f-string conflict reason.  The
claims never inspect this text; it stands in for Python `str`. -/
def valueStr : Value → String
  | .vNone => "None"
  | .vNat n => toString n
  | .vStr s => s
  | .vBool b => if b then "True" else "False"
  | .vRat q => toString q.num ++ "/" ++ toString q.den
  | .vTable _ => "<table>"
  | .vList _ => "<list>"

/-- `PatchApplier._find_signal_by_match` compares only `start_bit` and
`length`; first match wins. -/
def signalMatches (sm : SignalMatch) (s : DBCSignal) : Bool :=
  s.start_bit = sm.start_bit && s.length = sm.length

/-- Index of the first list element satisfying `p` (the handlers write
the mutated signal back at this position, mirroring Python's in-place
object mutation). -/
def findMatchIdx (p : α → Bool) : List α → Option Nat
  | [] => none
  | a :: as => if p a then some 0 else (findMatchIdx p as).map (· + 1)

/-- Apply a `changes` map to a signal, left to right, as the loop in
`_handle_update_signal` does: a present-and-different `"from"` value
stops the loop (conflict) and leaves the remaining fields unmodified;
fields already processed keep their new values (the Python object was
mutated in place). -/
def applyChanges (sig : DBCSignal) :
    List (String × Change) → DBCSignal × Option (String × Value × Value)
  | [] => (sig, none)
  | (f, c) :: rest =>
      let current := sig.getField f
      if c.fromVal ≠ Value.vNone ∧ current ≠ c.fromVal then
        (sig, some (f, c.fromVal, current))
      else applyChanges (sig.setField f c.toVal) rest

/-- `PatchApplier._handle_update_signal`. -/
def handle_update_signal (model : DBCModel) (rule : PatchRule) :
    HandlerStatus × DBCModel :=
  let mid := hexToNat rule.message_id
  match model.getMsg mid with
  | none => (.skipped "message missing", model)
  | some message =>
    match rule.signal_match with
    | none => (.skipped "signal missing", model)
    | some sm =>
      match findMatchIdx (signalMatches sm) message.signals with
      | none => (.skipped "signal missing", model)
      | some i =>
        let sig := (message.signals.get? i).getD default
        let (sig', conflictInfo) := applyChanges sig rule.changes
        let model' := model.setMsg mid { message with signals := message.signals.set i sig' }
        match conflictInfo with
        | some (_, expected, current) =>
            (.conflict ("expected " ++ valueStr expected ++ " but found " ++ valueStr current),
             model')
        | none => (.applied, model')

/-- `PatchApplier._signal_from_dict` applied to an embedded signal
payload; we model the payload as an already-typed `DBCSignal`
(the dict-with-defaults coercion layer adds nothing the claims see). -/
def signal_from_dict (payload : DBCSignal) : DBCSignal := payload

/-- The inert default of `_handle_add_signal`'s final branch: 8-bit,
unsigned, little-endian (`intel`), start bit 0, scale 1, offset 0,
empty value table. -/
def defaultSignal (sig_name : String) : DBCSignal :=
  { name := sig_name, start_bit := 0, length := 8, byte_order := "intel",
    is_signed := false, scale := 1, offset := 0, minimum := none,
    maximum := none, unit := none, comment := none, value_table := [] }

/-- The fabrication chain of `_handle_add_signal`: the source consults
the reference catalog FIRST, falls back to the rule's embedded payload
(`rule.get("signal")`), and lastly to the inert default. -/
def fabricate_signal (ref_db : ReferenceDB) (rule : PatchRule) (sig_name : String) :
    DBCSignal :=
  match ref_db.suggest_for_signal sig_name with
  | some template => template
  | none =>
    match rule.signal with
    | some payload => signal_from_dict payload
    | none => defaultSignal sig_name

/-- `PatchApplier._handle_add_signal` (also serving
`add_signal_if_missing`). -/
def handle_add_signal (ref_db : ReferenceDB) (model : DBCModel) (rule : PatchRule) :
    HandlerStatus × DBCModel :=
  let mid := hexToNat rule.message_id
  match model.getMsg mid with
  | none => (.skipped "message missing", model)
  | some message =>
    match rule.signal_name with
    | none => (.skipped "signal unspecified", model)
    | some sig_name =>
      if sig_name = "" then (.skipped "signal unspecified", model)
      else if message.signals.any (fun s => s.name = sig_name) then
        (.skipped "already exists", model)
      else
        (.applied, model.setMsg mid
          { message with signals := message.signals ++ [fabricate_signal ref_db rule sig_name] })

/-- `PatchApplier._handle_remove_signal`: filter by name, report
`skipped` when nothing was removed. -/
def handle_remove_signal (model : DBCModel) (rule : PatchRule) :
    HandlerStatus × DBCModel :=
  let mid := hexToNat rule.message_id
  match model.getMsg mid with
  | none => (.skipped "message missing", model)
  | some message =>
    let kept := message.signals.filter (fun s => ¬ (some s.name = rule.signal_name))
    let model' := model.setMsg mid { message with signals := kept }
    if kept.length = message.signals.length then (.skipped "not found", model')
    else (.applied, model')

/-- `PatchApplier._handle_rename_signal`. -/
def handle_rename_signal (model : DBCModel) (rule : PatchRule) :
    HandlerStatus × DBCModel :=
  let mid := hexToNat rule.message_id
  match model.getMsg mid with
  | none => (.skipped "message missing", model)
  | some message =>
    match rule.signal_match with
    | none => (.skipped "signal missing", model)
    | some sm =>
      match findMatchIdx (signalMatches sm) message.signals with
      | none => (.skipped "signal missing", model)
      | some i =>
        match rule.signal_name with
        | none => (.skipped "new name missing", model)
        | some new_name =>
          if new_name = "" then (.skipped "new name missing", model)
          else
            let sig := (message.signals.get? i).getD default
            (.applied, model.setMsg mid
              { message with signals := message.signals.set i { sig with name := new_name } })

/-- `PatchApplier._handle_update_message_senders`. -/
def handle_update_message_senders (model : DBCModel) (rule : PatchRule) :
    HandlerStatus × DBCModel :=
  let mid := hexToNat rule.message_id
  match model.getMsg mid with
  | none => (.skipped "message missing", model)
  | some message =>
    let change := (assocGet rule.changes "senders").getD ⟨.vNone, .vNone⟩
    let expected := change.fromVal
    let new_val := change.toVal
    let current := Value.vList message.senders
    if expected ≠ Value.vNone ∧ current ≠ expected then
      (.conflict ("expected " ++ valueStr expected ++ " but found " ++ valueStr current), model)
    else
      let senders' := match new_val with
        | .vList l => l
        | _ => []
      (.applied, model.setMsg mid { message with senders := senders' })

/-- Stable ascending insertion by key. -/
def insertByKey (p : Nat × DBCMessage) : List (Nat × DBCMessage) → List (Nat × DBCMessage)
  | [] => [p]
  | q :: qs => if p.1 < q.1 then p :: q :: qs else q :: insertByKey p qs

/-- `DBCParser._build_model_from_db` iterates the database messages
sorted ascending by frame id and keys the dict by frame id, a later
duplicate overwriting an earlier one. -/
def rebuildMessages (entries : List (Nat × DBCMessage)) : List (Nat × DBCMessage) :=
  (entries.foldl (fun acc p => insertByKey p acc) []).foldl
    (fun acc p => assocSet acc p.1 p.2) []

/-- Modelled from the spec: `build_database_from_dict` is imported by
the applier but missing from the sources, and
`insert_message_into_database` plus `_refresh_model` round-trip through
the external cantools library.  Per §4.2 an explicit payload (or a
catalog hit) "fabricat[es]" exactly the described message and inserts
it into the collection; the rebuild re-keys every message by its own
frame id in ascending order. -/
def insertRebuilt (model : DBCModel) (msg : DBCMessage) : DBCModel :=
  { model with messages := rebuildMessages (model.messages ++ [(msg.message_id, msg)]) }

/-- `PatchApplier._handle_add_message`. -/
def handle_add_message (ref_db : ReferenceDB) (model : DBCModel) (rule : PatchRule) :
    HandlerStatus × DBCModel :=
  if rule.message_id = "" then (.skipped "message id missing", model)
  else
    let msg_hex := rule.message_id
    let msg_id := hexToNat msg_hex
    if assocHas model.messages msg_id then (.skipped "message exists", model)
    else
      match rule.message with
      | some payload => (.applied, insertRebuilt model payload)
      | none =>
        match ref_db.suggest_message msg_id ((rule.name).getD "") with
        | some suggestion => (.applied, insertRebuilt model suggestion)
        | none =>
          let new_message : DBCMessage :=
            { message_id := msg_id, name := "MSG_" ++ msg_hex, length := 8,
              is_extended_frame := false, cycle_time := none, comment := none,
              attributes := [], signals := [] }
          (.applied, { model with messages := assocSet model.messages msg_id new_message })

/-- `PatchApplier._handle_remove_message`. -/
def handle_remove_message (model : DBCModel) (rule : PatchRule) :
    HandlerStatus × DBCModel :=
  if rule.message_id = "" then (.skipped "message id missing", model)
  else
    let msg_id := hexToNat rule.message_id
    if ¬ assocHas model.messages msg_id then (.skipped "not found", model)
    else (.applied, { model with messages := model.messages.filter (fun p => p.1 ≠ msg_id) })

/-- `PatchApplier._handle_update_message`: wholesale replacement of the
message's serialized record, then the external rebuild (modelled as in
`insertRebuilt`). -/
def handle_update_message (model : DBCModel) (rule : PatchRule) :
    HandlerStatus × DBCModel :=
  if rule.message_id = "" then (.skipped "message id missing", model)
  else
    let msg_id := hexToNat rule.message_id
    if ¬ assocHas model.messages msg_id then (.skipped "message missing", model)
    else
      match rule.message with
      | none => (.skipped "no message payload", model)
      | some payload =>
        let entries := model.messages.map (fun p =>
          if p.1 = msg_id then (payload.message_id, payload) else p)
        (.applied, { model with messages := rebuildMessages entries })

/-- The op tags for which `getattr(self, f"_handle_{op}")` finds a
handler method on `PatchApplier`. -/
def knownOps : List String :=
  ["update_signal", "add_signal_if_missing", "add_signal", "remove_signal",
   "rename_signal", "update_message_senders", "add_message", "remove_message",
   "update_message"]

/-- Handler dispatch: `none` when the op tag has no handler. -/
def dispatch (ref_db : ReferenceDB) (model : DBCModel) (rule : PatchRule) :
    Option (HandlerStatus × DBCModel) :=
  if rule.op = "update_signal" then some (handle_update_signal model rule)
  else if rule.op = "add_signal_if_missing" then some (handle_add_signal ref_db model rule)
  else if rule.op = "add_signal" then some (handle_add_signal ref_db model rule)
  else if rule.op = "remove_signal" then some (handle_remove_signal model rule)
  else if rule.op = "rename_signal" then some (handle_rename_signal model rule)
  else if rule.op = "update_message_senders" then some (handle_update_message_senders model rule)
  else if rule.op = "add_message" then some (handle_add_message ref_db model rule)
  else if rule.op = "remove_message" then some (handle_remove_message model rule)
  else if rule.op = "update_message" then some (handle_update_message model rule)
  else none

/-- The applier's running state: the mutated model plus the three
outcome lists.  `applied` entries record only the rule
(`{"rule": rule}`); `skipped`/`conflicts` also carry the reason. -/
structure ApplyState where
  model : DBCModel
  applied : List PatchRule := []
  skipped : List (PatchRule × String) := []
  conflicts : List (PatchRule × String) := []
  deriving DecidableEq, Repr

/-- One iteration of the rule loop in `PatchApplier.apply_patch`. -/
def apply_step (ref_db : ReferenceDB) (st : ApplyState) (rule : PatchRule) : ApplyState :=
  match dispatch ref_db st.model rule with
  | none => { st with skipped := st.skipped ++ [(rule, "unsupported")] }
  | some (status, model') =>
    match status with
    | .applied => { st with model := model', applied := st.applied ++ [rule] }
    | .conflict reason => { st with model := model', conflicts := st.conflicts ++ [(rule, reason)] }
    | .skipped reason => { st with model := model', skipped := st.skipped ++ [(rule, reason)] }

/-- `DBCParser.update_database_from_model` serializes the mutated
descriptors to DBC text and re-parses them with the external cantools
library.  Modelled from the spec: §4.2 requires the rebuild to keep
"the model the caller observes" consistent with the mutated
descriptors, so on the descriptor fields the claims cover it is the
identity. -/
def update_database_from_model (model : DBCModel) : DBCModel := model

structure PatchResult where
  new_model : DBCModel
  applied : List PatchRule
  skipped : List (PatchRule × String)
  conflicts : List (PatchRule × String)
  deriving DecidableEq, Repr

/-- `PatchApplier.apply_patch`. -/
def apply_patch (ref_db : ReferenceDB) (model : DBCModel) (patch : PatchDoc) : PatchResult :=
  let st := patch.rules.foldl (apply_step ref_db) { model := model }
  { new_model := update_database_from_model st.model,
    applied := st.applied, skipped := st.skipped, conflicts := st.conflicts }

/-! ## Basic lemmas: hex round trip -/

theorem hexDigitVal_hexDigit : ∀ d < 16, hexDigitVal (hexDigit d) = d := by decide

theorem parse_toHexAux : ∀ (fuel n : Nat), n < fuel →
    (toHexAux fuel n).foldl (fun acc c => acc * 16 + hexDigitVal c) 0 = n := by
  intro fuel
  induction fuel with
  | zero => intro n h; exact absurd h (Nat.not_lt_zero n)
  | succ f ih =>
    intro n h
    by_cases h16 : n < 16
    · simp [toHexAux, h16, hexDigitVal_hexDigit n h16]
    · rw [toHexAux, if_neg h16, List.foldl_append]
      have hn0 : 0 < n := by omega
      have hdivn : n / 16 < n := Nat.div_lt_self hn0 (by omega)
      have hdiv : n / 16 < f := by omega
      rw [ih (n / 16) hdiv]
      simp [hexDigitVal_hexDigit (n % 16) (Nat.mod_lt _ (by omega))]
      omega

theorem natToHex_toList (n : Nat) :
    (natToHex n).toList = '0' :: 'x' :: toHexAux (n + 1) n := rfl

theorem hexToNat_natToHex (n : Nat) : hexToNat (natToHex n) = n := by
  have h2 : ('0' :: 'x' :: toHexAux (n + 1) n).take 2 = ['0', 'x'] := rfl
  rw [hexToNat]
  rw [show (natToHex n).toList = '0' :: 'x' :: toHexAux (n + 1) n from rfl]
  simp only [h2, List.drop_succ_cons, List.drop_zero]
  rw [if_pos (Or.inl trivial)]
  exact parse_toHexAux (n + 1) n (Nat.lt_succ_self n)

theorem natToHex_injective : Function.Injective natToHex := by
  intro a b h
  have := congrArg hexToNat h
  rwa [hexToNat_natToHex, hexToNat_natToHex] at this

theorem natToHex_ne_empty (n : Nat) : natToHex n ≠ "" := by
  intro h
  have := congrArg String.toList h
  rw [natToHex_toList] at this
  exact absurd this (by simp)

/-! ## Basic lemmas: association lists -/

section AssocLemmas
variable {κ : Type} {α : Type} [DecidableEq κ]

theorem assocGet_nil (k : κ) : assocGet ([] : List (κ × α)) k = none := rfl

theorem assocGet_cons (p : κ × α) (l : List (κ × α)) (k : κ) :
    assocGet (p :: l) k = if p.1 = k then some p.2 else assocGet l k := by
  by_cases h : p.1 = k <;> simp [assocGet, List.find?_cons, h]

theorem assocGet_append (l₁ l₂ : List (κ × α)) (k : κ) :
    assocGet (l₁ ++ l₂) k = (assocGet l₁ k).or (assocGet l₂ k) := by
  induction l₁ with
  | nil => simp [assocGet]
  | cons p l ih =>
    by_cases h : p.1 = k <;> simp [assocGet_cons, h, ih]

/-- `assocGet` over the replace-in-place map used by `assocSet`. -/
theorem assocGet_replace (l : List (κ × α)) (k k' : κ) (v : α) :
    assocGet (l.map (fun p => if p.1 = k then (k, v) else p)) k' =
      if k' = k then (assocGet l k).map (fun _ => v) else assocGet l k' := by
  induction l with
  | nil => by_cases h : k' = k <;> simp [assocGet, h]
  | cons p l ih =>
    by_cases hp : p.1 = k
    · by_cases hk : k' = k
      · subst hk
        simp [assocGet_cons, hp, ih]
      · have hne : ¬ k = k' := fun hh => hk hh.symm
        simp [assocGet_cons, hp, hne, ih, hk]
    · by_cases hk : k' = k
      · subst hk
        have hne : ¬ p.1 = k' := hp
        simp [assocGet_cons, hp, hne, ih]
      · by_cases hpk : p.1 = k' <;> simp [assocGet_cons, hp, hpk, ih, hk]

theorem assocHas_get_isSome (l : List (κ × α)) (k : κ)
    (h : l.any (fun p => p.1 = k) = true) : ∃ v, assocGet l k = some v := by
  induction l with
  | nil => simp at h
  | cons p l ih =>
    by_cases hp : p.1 = k
    · exact ⟨p.2, by simp [assocGet_cons, hp]⟩
    · have h' : l.any (fun p => p.1 = k) = true := by
        simpa [List.any_cons, hp] using h
      rcases ih h' with ⟨v, hv⟩
      exact ⟨v, by simp [assocGet_cons, hp, hv]⟩

theorem assocGet_eq_none_of_not_any (l : List (κ × α)) (k : κ)
    (h : l.any (fun p => p.1 = k) = false) : assocGet l k = none := by
  induction l with
  | nil => rfl
  | cons p l ih =>
    simp only [List.any_cons, Bool.or_eq_false_iff] at h
    have hp : ¬ p.1 = k := by simpa using h.1
    simp [assocGet_cons, hp, ih h.2]

theorem assocGet_assocSet (l : List (κ × α)) (k k' : κ) (v : α) :
    assocGet (assocSet l k v) k' = if k' = k then some v else assocGet l k' := by
  unfold assocSet
  by_cases hany : l.any (fun p => p.1 = k)
  · rw [if_pos hany, assocGet_replace]
    rcases assocHas_get_isSome l k hany with ⟨w, hw⟩
    by_cases h : k' = k <;> simp [h, hw]
  · rw [if_neg hany, assocGet_append]
    have hnone := assocGet_eq_none_of_not_any l k (Bool.eq_false_iff.mpr hany)
    by_cases h : k' = k
    · subst h
      simp [hnone, assocGet_cons]
    · have hne : ¬ k = k' := fun hh => h hh.symm
      cases hg : assocGet l k' <;> simp [h, hg, assocGet_cons, hne, assocGet]

theorem assocGet_assocSet_self (l : List (κ × α)) (k : κ) (v : α) :
    assocGet (assocSet l k v) k = some v := by
  simp [assocGet_assocSet]

theorem assocGet_assocSet_ne (l : List (κ × α)) (k k' : κ) (v : α) (h : k' ≠ k) :
    assocGet (assocSet l k v) k' = assocGet l k' := by
  simp [assocGet_assocSet, h]

theorem assocGet_eq_none_of_not_has (l : List (κ × α)) (k : κ)
    (h : assocHas l k = false) : assocGet l k = none :=
  assocGet_eq_none_of_not_any l k h

theorem assocSet_of_not_has (l : List (κ × α)) (k : κ) (v : α)
    (h : assocHas l k = false) : assocSet l k v = l ++ [(k, v)] := by
  unfold assocSet
  rw [assocHas] at h
  rw [if_neg (by rw [h]; exact Bool.false_ne_true)]

theorem assocGet_mem (l : List (κ × α)) (k : κ) (v : α)
    (h : assocGet l k = some v) : (k, v) ∈ l := by
  unfold assocGet at h
  cases hf : l.find? (fun p => p.1 = k) with
  | none => simp [hf] at h
  | some p =>
    simp only [hf, Option.map_some] at h
    have hm := List.mem_of_find?_eq_some hf
    have hp := List.find?_some hf
    simp only [decide_eq_true_eq] at hp
    have : p = (k, v) := by
      cases p; simp_all
    rwa [this] at hm

/-- Generic overwrite-fold characterization: after folding a list of
insertions, a key's value is the LAST insertion with that key, else the
original binding ("last write wins"). -/
theorem assocGet_foldl_assocSet (inserts : List (κ × α)) (init : List (κ × α)) (k : κ) :
    assocGet (inserts.foldl (fun acc p => assocSet acc p.1 p.2) init) k =
      ((inserts.reverse.find? (fun p => p.1 = k)).map (·.2)).or (assocGet init k) := by
  induction inserts generalizing init with
  | nil => simp
  | cons p ps ih =>
    rw [List.foldl_cons, ih, List.reverse_cons, List.find?_append]
    cases hf : ps.reverse.find? (fun q => q.1 = k) with
    | some q => simp [hf]
    | none =>
      simp only [hf, Option.none_or]
      by_cases hp : p.1 = k
      · rw [assocGet_assocSet, if_pos hp.symm]
        simp [List.find?_cons, hp]
      · rw [assocGet_assocSet, if_neg (fun hh => hp hh.symm)]
        simp [List.find?_cons, hp]

end AssocLemmas

/-! ## Basic lemmas: sorting -/

theorem insertSorted_perm (n : Nat) (l : List Nat) : (insertSorted n l).Perm (n :: l) := by
  induction l with
  | nil => exact List.Perm.refl _
  | cons m ms ih =>
    unfold insertSorted
    by_cases h : n ≤ m
    · rw [if_pos h]
    · rw [if_neg h]
      exact (List.Perm.cons m ih).trans (List.Perm.swap n m ms)

theorem sortNat_perm (l : List Nat) : (sortNat l).Perm l := by
  induction l with
  | nil => exact List.Perm.refl _
  | cons n ms ih =>
    show (insertSorted n (sortNat ms)).Perm (n :: ms)
    exact (insertSorted_perm n (sortNat ms)).trans (List.Perm.cons n ih)

theorem mem_sortNat (l : List Nat) (a : Nat) : a ∈ sortNat l ↔ a ∈ l :=
  (sortNat_perm l).mem_iff

theorem sortNat_nodup (l : List Nat) (h : l.Nodup) : (sortNat l).Nodup :=
  ((sortNat_perm l).nodup_iff).mpr h

theorem mem_sortedSet (l : List Nat) (a : Nat) : a ∈ sortedSet l ↔ a ∈ l := by
  rw [sortedSet, mem_sortNat, List.mem_dedup]

theorem sortedSet_nodup (l : List Nat) : (sortedSet l).Nodup :=
  sortNat_nodup _ (List.nodup_dedup l)

/-! ## Basic lemmas: the applier's rule loop -/

/-- The model component of the rule loop, reports stripped off. -/
def applyRules (ref_db : ReferenceDB) (model : DBCModel) (rules : List PatchRule) : DBCModel :=
  rules.foldl (fun m r =>
    match dispatch ref_db m r with
    | none => m
    | some p => p.2) model

theorem applyRules_nil (ref_db : ReferenceDB) (model : DBCModel) :
    applyRules ref_db model [] = model := rfl

theorem applyRules_cons (ref_db : ReferenceDB) (model : DBCModel) (r : PatchRule)
    (rs : List PatchRule) :
    applyRules ref_db model (r :: rs) =
      applyRules ref_db
        (match dispatch ref_db model r with | none => model | some p => p.2) rs := rfl

theorem applyRules_append (ref_db : ReferenceDB) (model : DBCModel)
    (rs₁ rs₂ : List PatchRule) :
    applyRules ref_db model (rs₁ ++ rs₂) =
      applyRules ref_db (applyRules ref_db model rs₁) rs₂ :=
  List.foldl_append _ _ _ _

theorem apply_step_model (ref_db : ReferenceDB) (st : ApplyState) (r : PatchRule) :
    (apply_step ref_db st r).model =
      match dispatch ref_db st.model r with
      | none => st.model
      | some p => p.2 := by
  unfold apply_step
  cases dispatch ref_db st.model r with
  | none => rfl
  | some p =>
    cases p with
    | mk status m' => cases status <;> rfl

theorem foldl_apply_step_model (ref_db : ReferenceDB) (rules : List PatchRule) :
    ∀ (st : ApplyState),
      (rules.foldl (apply_step ref_db) st).model = applyRules ref_db st.model rules := by
  induction rules with
  | nil => intro st; rfl
  | cons r rs ih =>
    intro st
    rw [List.foldl_cons, ih, applyRules_cons, apply_step_model]

/-- The loop only ever appends to the three report lists, so a run from
an arbitrary starting state is the clean run with the starting lists
prefixed. -/
theorem foldl_apply_step_state (ref_db : ReferenceDB) (rules : List PatchRule) :
    ∀ (st : ApplyState),
      rules.foldl (apply_step ref_db) st =
        { model := applyRules ref_db st.model rules,
          applied := st.applied ++
            (rules.foldl (apply_step ref_db) { model := st.model }).applied,
          skipped := st.skipped ++
            (rules.foldl (apply_step ref_db) { model := st.model }).skipped,
          conflicts := st.conflicts ++
            (rules.foldl (apply_step ref_db) { model := st.model }).conflicts } := by
  induction rules with
  | nil =>
    intro st
    cases st
    simp [applyRules]
  | cons r rs ih =>
    intro st
    rw [List.foldl_cons, List.foldl_cons, ih (apply_step ref_db st r),
        ih (apply_step ref_db { model := st.model } r)]
    have hm : (apply_step ref_db st r).model =
        (apply_step ref_db { model := st.model } r).model := by
      rw [apply_step_model, apply_step_model]
    unfold apply_step
    cases hd : dispatch ref_db st.model r with
    | none => simp [applyRules_cons, hd]
    | some p =>
      cases p with
      | mk status m' =>
        cases status <;> simp [applyRules_cons, hd]

theorem dispatch_eq_none (ref_db : ReferenceDB) (model : DBCModel) (rule : PatchRule)
    (h : rule.op ∉ knownOps) : dispatch ref_db model rule = none := by
  simp only [knownOps, List.mem_cons, List.not_mem_nil, or_false, not_or] at h
  obtain ⟨h1, h2, h3, h4, h5, h6, h7, h8, h9⟩ := h
  simp [dispatch, h1, h2, h3, h4, h5, h6, h7, h8, h9]

/-- C8 — For every patch document and every rule in it whose op tag has
no known handler, `apply_patch` records that rule as Skipped with
reason "unsupported" and continues processing all subsequent rules; no
single rule ever aborts the batch, and the outcomes of the other rules
are the same as if the unsupported rule were absent. -/
theorem unsupported_op_skipped_batch_continues
    (ref_db : ReferenceDB) (model : DBCModel) (v : Nat)
    (rs₁ rs₂ : List PatchRule) (bad : PatchRule) (hbad : bad.op ∉ knownOps) :
    ∃ s₁ s₂,
      (apply_patch ref_db model ⟨v, rs₁⟩).skipped = s₁ ∧
      (apply_patch ref_db model ⟨v, rs₁ ++ rs₂⟩).skipped = s₁ ++ s₂ ∧
      apply_patch ref_db model ⟨v, rs₁ ++ bad :: rs₂⟩ =
        { new_model := (apply_patch ref_db model ⟨v, rs₁ ++ rs₂⟩).new_model,
          applied := (apply_patch ref_db model ⟨v, rs₁ ++ rs₂⟩).applied,
          conflicts := (apply_patch ref_db model ⟨v, rs₁ ++ rs₂⟩).conflicts,
          skipped := s₁ ++ (bad, "unsupported") :: s₂ } := by
  classical
  have hpatch : ∀ (rules : List PatchRule),
      apply_patch ref_db model ⟨v, rules⟩ =
        { new_model := (rules.foldl (apply_step ref_db) { model := model }).model,
          applied := (rules.foldl (apply_step ref_db) { model := model }).applied,
          skipped := (rules.foldl (apply_step ref_db) { model := model }).skipped,
          conflicts := (rules.foldl (apply_step ref_db) { model := model }).conflicts } :=
    fun _ => rfl
  set st₁ : ApplyState := rs₁.foldl (apply_step ref_db) { model := model } with hst₁
  have hbadstep : apply_step ref_db st₁ bad =
      { st₁ with skipped := st₁.skipped ++ [(bad, "unsupported")] } := by
    unfold apply_step
    rw [dispatch_eq_none ref_db st₁.model bad hbad]
  refine ⟨st₁.skipped,
    (rs₂.foldl (apply_step ref_db) { model := st₁.model }).skipped, ?_, ?_, ?_⟩
  · rw [hpatch rs₁]
  · rw [hpatch (rs₁ ++ rs₂)]
    simp only [List.foldl_append, ← hst₁]
    rw [foldl_apply_step_state ref_db rs₂ st₁]
  · rw [hpatch (rs₁ ++ bad :: rs₂), hpatch (rs₁ ++ rs₂)]
    simp only [List.foldl_append, List.foldl_cons, ← hst₁]
    rw [hbadstep]
    rw [foldl_apply_step_state ref_db rs₂
      { st₁ with skipped := st₁.skipped ++ [(bad, "unsupported")] }]
    rw [foldl_apply_step_state ref_db rs₂ st₁]
    simp

/-! ## Field access lemmas -/

/-- The attribute-name table, inverted. -/
def fieldName : Field → String
  | .name => "name"
  | .start_bit => "start_bit"
  | .length => "length"
  | .byte_order => "byte_order"
  | .is_signed => "is_signed"
  | .scale => "scale"
  | .offset => "offset"
  | .minimum => "minimum"
  | .maximum => "maximum"
  | .unit => "unit"
  | .comment => "comment"
  | .value_table => "value_table"
  | .multiplex => "multiplex"
  | .multiplexer_ids => "multiplexer_ids"
  | .receivers => "receivers"

theorem fieldOfString_fieldName : ∀ fd : Field, fieldOfString (fieldName fd) = some fd := by
  intro fd; cases fd <;> rfl

theorem fieldOfString_eq_some {f : String} {fd : Field}
    (h : fieldOfString f = some fd) : f = fieldName fd := by
  unfold fieldOfString at h
  split at h <;>
    first
      | (rw [Option.some_inj] at h; rw [← h]; rfl)
      | exact Option.noConfusion h

/-- A value shape that `setF` actually stores into the attribute, so
that reading it back returns it.  (`multiplexer_ids` is absent: no code
path covered by the claims writes it through `setattr`.) -/
def fitsF : Field → Value → Bool
  | .name, .vStr _ => true
  | .start_bit, .vNat _ => true
  | .length, .vNat _ => true
  | .byte_order, .vStr _ => true
  | .is_signed, .vBool _ => true
  | .scale, .vRat _ => true
  | .offset, .vRat _ => true
  | .minimum, .vRat _ => true
  | .minimum, .vNone => true
  | .maximum, .vRat _ => true
  | .maximum, .vNone => true
  | .unit, .vStr _ => true
  | .unit, .vNone => true
  | .comment, .vStr _ => true
  | .comment, .vNone => true
  | .value_table, .vTable _ => true
  | .multiplex, .vStr _ => true
  | .multiplex, .vNone => true
  | .receivers, .vList _ => true
  | _, _ => false

/-- String-level well-typedness of a `(field, value)` write. -/
def wellTyped (f : String) (v : Value) : Bool :=
  match fieldOfString f with
  | some fd => fitsF fd v
  | none => false

theorem getF_setF_self (s : DBCSignal) (fd : Field) (v : Value) (h : fitsF fd v = true) :
    getF (setF s fd v) fd = v := by
  cases fd <;> cases v <;> simp_all [fitsF, getF, setF, optRatVal, optStrVal]

theorem getF_setF_ne (s : DBCSignal) (fd fd' : Field) (v : Value) (h : fd ≠ fd') :
    getF (setF s fd' v) fd = getF s fd := by
  cases fd <;> cases fd' <;> first
    | exact absurd rfl h
    | (cases v <;> rfl)

theorem getField_setField_self (s : DBCSignal) (f : String) (v : Value)
    (h : wellTyped f v = true) : (s.setField f v).getField f = v := by
  unfold wellTyped at h
  unfold DBCSignal.getField DBCSignal.setField
  cases hf : fieldOfString f with
  | none => rw [hf] at h; simp at h
  | some fd => rw [hf] at h; exact getF_setF_self s fd v h

theorem getField_setField_ne (s : DBCSignal) (f g : String) (v : Value) (h : f ≠ g) :
    (s.setField g v).getField f = s.getField f := by
  unfold DBCSignal.getField DBCSignal.setField
  cases hf : fieldOfString f with
  | none => cases hg : fieldOfString g <;> rfl
  | some fd =>
    cases hg : fieldOfString g with
    | none => rfl
    | some gd =>
      refine getF_setF_ne s fd gd v ?_
      intro he
      subst he
      exact h ((fieldOfString_eq_some hf).trans (fieldOfString_eq_some hg).symm)

/-- Every field of the diff engine's comparison list. -/
theorem fieldList_nodup : fieldList.Nodup := by decide

/-- Reading an attribute named in `fieldList` always yields a value the
same attribute accepts back (`fieldList` avoids `multiplexer_ids`). -/
theorem wellTyped_getField_of_mem (s : DBCSignal) (f : String) (h : f ∈ fieldList) :
    wellTyped f (s.getField f) = true := by
  fin_cases h
  · rfl
  · rfl
  · rfl
  · rfl
  · rfl
  · rfl
  · rfl
  · show wellTyped "minimum" (optRatVal s.minimum) = true
    cases s.minimum <;> rfl
  · show wellTyped "maximum" (optRatVal s.maximum) = true
    cases s.maximum <;> rfl
  · show wellTyped "unit" (optStrVal s.unit) = true
    cases s.unit <;> rfl
  · show wellTyped "comment" (optStrVal s.comment) = true
    cases s.comment <;> rfl
  · rfl
  · rfl

/-- `setField` with any `fieldList` attribute leaves the two multiplex
attributes untouched. -/
theorem setField_multiplex (s : DBCSignal) (f : String) (v : Value) (h : f ∈ fieldList) :
    (s.setField f v).multiplex = s.multiplex ∧
    (s.setField f v).multiplexer_ids = s.multiplexer_ids := by
  fin_cases h <;>
    (simp only [DBCSignal.setField, fieldOfString]
     cases v <;> simp [setF])

/-! ## UpdateSignal handler lemmas (C5, C10) -/

theorem applyChanges_cons (sig : DBCSignal) (f : String) (c : Change)
    (rest : List (String × Change)) :
    applyChanges sig ((f, c) :: rest) =
      if c.fromVal ≠ Value.vNone ∧ sig.getField f ≠ c.fromVal then
        (sig, some (f, c.fromVal, sig.getField f))
      else applyChanges (sig.setField f c.toVal) rest := rfl

theorem applyChanges_good : ∀ (changes : List (String × Change)) (sig : DBCSignal),
    (changes.map Prod.fst).Nodup →
    (∀ fc ∈ changes, fc.2.fromVal = Value.vNone ∨ sig.getField fc.1 = fc.2.fromVal) →
    (applyChanges sig changes).2 = none ∧
    (∀ fc ∈ changes, wellTyped fc.1 fc.2.toVal = true →
      (applyChanges sig changes).1.getField fc.1 = fc.2.toVal) ∧
    (∀ f, f ∉ changes.map Prod.fst →
      (applyChanges sig changes).1.getField f = sig.getField f) := by
  intro changes
  induction changes with
  | nil =>
    intro sig _ _
    exact ⟨rfl, by simp, fun f _ => rfl⟩
  | cons fc₀ rest ih =>
    intro sig hnd hgood
    obtain ⟨f, c⟩ := fc₀
    have hgood₀ := hgood (f, c) (List.mem_cons_self _ _)
    have hcond : ¬ (c.fromVal ≠ Value.vNone ∧ sig.getField f ≠ c.fromVal) := by
      rcases hgood₀ with h | h
      · exact fun hc => hc.1 h
      · exact fun hc => hc.2 h
    have hstep : applyChanges sig ((f, c) :: rest) =
        applyChanges (sig.setField f c.toVal) rest := by
      rw [applyChanges_cons, if_neg hcond]
    have hfnotin : f ∉ rest.map Prod.fst := by
      have := hnd
      simp only [List.map_cons, List.nodup_cons] at this
      exact this.1
    have hndrest : (rest.map Prod.fst).Nodup := by
      have := hnd
      simp only [List.map_cons, List.nodup_cons] at this
      exact this.2
    have hgoodrest : ∀ fc ∈ rest, fc.2.fromVal = Value.vNone ∨
        (sig.setField f c.toVal).getField fc.1 = fc.2.fromVal := by
      intro fc hfc
      have hne : fc.1 ≠ f := by
        intro he
        exact hfnotin (he ▸ List.mem_map_of_mem Prod.fst hfc)
      rw [getField_setField_ne sig fc.1 f c.toVal hne]
      exact hgood fc (List.mem_cons_of_mem _ hfc)
    obtain ⟨ih1, ih2, ih3⟩ := ih (sig.setField f c.toVal) hndrest hgoodrest
    rw [hstep]
    refine ⟨ih1, ?_, ?_⟩
    · intro fc hfc htyped
      rcases List.mem_cons.mp hfc with he | hmem
      · subst he
        rw [ih3 f hfnotin]
        exact getField_setField_self sig f c.toVal htyped
      · exact ih2 fc hmem htyped
    · intro g hg
      simp only [List.map_cons, List.mem_cons, not_or] at hg
      rw [ih3 g hg.2]
      exact getField_setField_ne sig g f c.toVal hg.1

theorem applyChanges_conflict : ∀ (changes : List (String × Change)) (sig : DBCSignal),
    (changes.map Prod.fst).Nodup →
    (∃ fc ∈ changes, fc.2.fromVal ≠ Value.vNone ∧ sig.getField fc.1 ≠ fc.2.fromVal) →
    (applyChanges sig changes).2 ≠ none ∧
    (∀ fc ∈ changes, fc.2.fromVal ≠ Value.vNone → sig.getField fc.1 ≠ fc.2.fromVal →
      (applyChanges sig changes).1.getField fc.1 = sig.getField fc.1) := by
  intro changes
  induction changes with
  | nil =>
    intro sig _ hbad
    rcases hbad with ⟨fc, hmem, _⟩
    simp at hmem
  | cons fc₀ rest ih =>
    intro sig hnd hbad
    obtain ⟨f, c⟩ := fc₀
    by_cases hcond : c.fromVal ≠ Value.vNone ∧ sig.getField f ≠ c.fromVal
    · have hstep : applyChanges sig ((f, c) :: rest) =
          (sig, some (f, c.fromVal, sig.getField f)) := by
        rw [applyChanges_cons, if_pos hcond]
      rw [hstep]
      exact ⟨by simp, fun fc _ _ _ => rfl⟩
    · have hstep : applyChanges sig ((f, c) :: rest) =
          applyChanges (sig.setField f c.toVal) rest := by
        rw [applyChanges_cons, if_neg hcond]
      have hfnotin : f ∉ rest.map Prod.fst := by
        have := hnd
        simp only [List.map_cons, List.nodup_cons] at this
        exact this.1
      have hndrest : (rest.map Prod.fst).Nodup := by
        have := hnd
        simp only [List.map_cons, List.nodup_cons] at this
        exact this.2
      have hframe : ∀ fc ∈ rest,
          (sig.setField f c.toVal).getField fc.1 = sig.getField fc.1 := by
        intro fc hfc
        have hne : fc.1 ≠ f := by
          intro he
          exact hfnotin (he ▸ List.mem_map_of_mem Prod.fst hfc)
        exact getField_setField_ne sig fc.1 f c.toVal hne
      have hbadrest : ∃ fc ∈ rest, fc.2.fromVal ≠ Value.vNone ∧
          (sig.setField f c.toVal).getField fc.1 ≠ fc.2.fromVal := by
        rcases hbad with ⟨fc, hmem, hb1, hb2⟩
        rcases List.mem_cons.mp hmem with he | hmem'
        · rw [he] at hb1 hb2
          exact absurd ⟨hb1, hb2⟩ hcond
        · exact ⟨fc, hmem', hb1, by rw [hframe fc hmem']; exact hb2⟩
      obtain ⟨ih1, ih2⟩ := ih (sig.setField f c.toVal) hndrest hbadrest
      rw [hstep]
      refine ⟨ih1, ?_⟩
      intro fc hfc hb1 hb2
      rcases List.mem_cons.mp hfc with he | hmem'
      · rw [he] at hb1 hb2
        exact absurd ⟨hb1, hb2⟩ hcond
      · rw [ih2 fc hmem' hb1 (by rw [hframe fc hmem']; exact hb2)]
        exact hframe fc hmem'

theorem applyChanges_split : ∀ (pre : List (String × Change)) (f : String) (c : Change)
    (post : List (String × Change)) (sig : DBCSignal),
    ((pre ++ (f, c) :: post).map Prod.fst).Nodup →
    (∀ fc ∈ pre, fc.2.fromVal = Value.vNone ∨ sig.getField fc.1 = fc.2.fromVal) →
    c.fromVal ≠ Value.vNone → sig.getField f ≠ c.fromVal →
    applyChanges sig (pre ++ (f, c) :: post) =
      (pre.foldl (fun s fc => s.setField fc.1 fc.2.toVal) sig,
       some (f, c.fromVal, sig.getField f)) := by
  intro pre
  induction pre with
  | nil =>
    intro f c post sig _ _ hb1 hb2
    rw [List.nil_append, applyChanges_cons, if_pos ⟨hb1, hb2⟩]
    rfl
  | cons gd pre' ih =>
    intro f c post sig hnd hgoodpre hb1 hb2
    obtain ⟨g, d⟩ := gd
    have hgood₀ := hgoodpre (g, d) (List.mem_cons_self _ _)
    have hcond : ¬ (d.fromVal ≠ Value.vNone ∧ sig.getField g ≠ d.fromVal) := by
      rcases hgood₀ with h | h
      · exact fun hc => hc.1 h
      · exact fun hc => hc.2 h
    have hgnotin : g ∉ (pre' ++ (f, c) :: post).map Prod.fst := by
      have := hnd
      simp only [List.cons_append, List.map_cons, List.nodup_cons] at this
      exact this.1
    have hfmem : f ∈ (pre' ++ (f, c) :: post).map Prod.fst :=
      List.mem_map_of_mem Prod.fst (show (f, c) ∈ pre' ++ (f, c) :: post by simp)
    have hfg : f ≠ g := by
      intro he
      rw [← he] at hgnotin
      exact hgnotin hfmem
    have hndrest : ((pre' ++ (f, c) :: post).map Prod.fst).Nodup := by
      have := hnd
      simp only [List.cons_append, List.map_cons, List.nodup_cons] at this
      exact this.2
    have hgoodpre' : ∀ fc ∈ pre', fc.2.fromVal = Value.vNone ∨
        (sig.setField g d.toVal).getField fc.1 = fc.2.fromVal := by
      intro fc hfc
      have hne : fc.1 ≠ g := by
        intro he
        exact hgnotin (he ▸ List.mem_map_of_mem Prod.fst (by simp [hfc]))
      rw [getField_setField_ne sig fc.1 g d.toVal hne]
      exact hgoodpre fc (List.mem_cons_of_mem _ hfc)
    have hframe_f : (sig.setField g d.toVal).getField f = sig.getField f :=
      getField_setField_ne sig f g d.toVal hfg
    have hstep : applyChanges sig (((g, d) :: pre') ++ (f, c) :: post) =
        applyChanges (sig.setField g d.toVal) (pre' ++ (f, c) :: post) := by
      rw [List.cons_append, applyChanges_cons, if_neg hcond]
    rw [hstep, ih f c post (sig.setField g d.toVal) hndrest hgoodpre' hb1
      (by rw [hframe_f]; exact hb2)]
    rw [hframe_f]
    rfl

theorem foldl_setField_getField : ∀ (pre : List (String × Change)) (sig : DBCSignal),
    (pre.map Prod.fst).Nodup →
    (∀ fc ∈ pre, wellTyped fc.1 fc.2.toVal = true →
      (pre.foldl (fun s fc => s.setField fc.1 fc.2.toVal) sig).getField fc.1 = fc.2.toVal) ∧
    (∀ f, f ∉ pre.map Prod.fst →
      (pre.foldl (fun s fc => s.setField fc.1 fc.2.toVal) sig).getField f = sig.getField f) := by
  intro pre
  induction pre with
  | nil =>
    intro sig _
    exact ⟨by simp, fun f _ => rfl⟩
  | cons fc₀ rest ih =>
    intro sig hnd
    obtain ⟨f, c⟩ := fc₀
    have hfnotin : f ∉ rest.map Prod.fst := by
      have := hnd
      simp only [List.map_cons, List.nodup_cons] at this
      exact this.1
    have hndrest : (rest.map Prod.fst).Nodup := by
      have := hnd
      simp only [List.map_cons, List.nodup_cons] at this
      exact this.2
    obtain ⟨ih1, ih2⟩ := ih (sig.setField f c.toVal) hndrest
    rw [List.foldl_cons]
    refine ⟨?_, ?_⟩
    · intro fc hfc htyped
      rcases List.mem_cons.mp hfc with he | hmem
      · subst he
        rw [ih2 f hfnotin]
        exact getField_setField_self sig f c.toVal htyped
      · exact ih1 fc hmem htyped
    · intro g hg
      simp only [List.map_cons, List.mem_cons, not_or] at hg
      rw [ih2 g hg.2]
      exact getField_setField_ne sig g f c.toVal hg.1

theorem handle_update_signal_applied_eq (model : DBCModel) (rule : PatchRule)
    (message : DBCMessage) (sm : SignalMatch) (i : Nat) (sig sig' : DBCSignal)
    (hmsg : model.getMsg (hexToNat rule.message_id) = some message)
    (hsm : rule.signal_match = some sm)
    (hidx : findMatchIdx (signalMatches sm) message.signals = some i)
    (hsig : message.signals.get? i = some sig)
    (happly : applyChanges sig rule.changes = (sig', none)) :
    handle_update_signal model rule =
      (.applied, model.setMsg (hexToNat rule.message_id)
        { message with signals := message.signals.set i sig' }) := by
  simp only [handle_update_signal, hmsg, hsm, hidx, hsig, Option.getD_some, happly]

theorem handle_update_signal_conflict_eq (model : DBCModel) (rule : PatchRule)
    (message : DBCMessage) (sm : SignalMatch) (i : Nat) (sig sig' : DBCSignal)
    (f : String) (e cur : Value)
    (hmsg : model.getMsg (hexToNat rule.message_id) = some message)
    (hsm : rule.signal_match = some sm)
    (hidx : findMatchIdx (signalMatches sm) message.signals = some i)
    (hsig : message.signals.get? i = some sig)
    (happly : applyChanges sig rule.changes = (sig', some (f, e, cur))) :
    handle_update_signal model rule =
      (.conflict ("expected " ++ valueStr e ++ " but found " ++ valueStr cur),
       model.setMsg (hexToNat rule.message_id)
        { message with signals := message.signals.set i sig' }) := by
  simp only [handle_update_signal, hmsg, hsm, hidx, hsig, Option.getD_some, happly]

/-- C5 — `UpdateSignal` semantics: a missing message or missing
bit-locator match yields Skipped (never Conflict); when the signal is
found, the rule conflicts as soon as some changed field has a "from"
value that is present (non-`None`) and differs from the current value
— that field keeps its current value — and otherwise the rule is
Applied with every changed field overwritten by its "to" value. -/
theorem update_signal_optimistic (model : DBCModel) (rule : PatchRule) :
    (model.getMsg (hexToNat rule.message_id) = none →
      handle_update_signal model rule = (.skipped "message missing", model)) ∧
    (∀ message, model.getMsg (hexToNat rule.message_id) = some message →
      (rule.signal_match = none →
        handle_update_signal model rule = (.skipped "signal missing", model)) ∧
      (∀ sm, rule.signal_match = some sm →
        findMatchIdx (signalMatches sm) message.signals = none →
        handle_update_signal model rule = (.skipped "signal missing", model)) ∧
      (∀ sm i sig, rule.signal_match = some sm →
        findMatchIdx (signalMatches sm) message.signals = some i →
        message.signals.get? i = some sig →
        (rule.changes.map Prod.fst).Nodup →
        ((∀ fc ∈ rule.changes,
            fc.2.fromVal = Value.vNone ∨ sig.getField fc.1 = fc.2.fromVal) →
          ∃ sig', handle_update_signal model rule =
              (.applied, model.setMsg (hexToNat rule.message_id)
                { message with signals := message.signals.set i sig' }) ∧
            (∀ fc ∈ rule.changes, wellTyped fc.1 fc.2.toVal = true →
              sig'.getField fc.1 = fc.2.toVal)) ∧
        ((∃ fc ∈ rule.changes,
            fc.2.fromVal ≠ Value.vNone ∧ sig.getField fc.1 ≠ fc.2.fromVal) →
          ∃ reason sig', handle_update_signal model rule =
              (.conflict reason, model.setMsg (hexToNat rule.message_id)
                { message with signals := message.signals.set i sig' }) ∧
            (∀ fc ∈ rule.changes, fc.2.fromVal ≠ Value.vNone →
              sig.getField fc.1 ≠ fc.2.fromVal →
              sig'.getField fc.1 = sig.getField fc.1)))) := by
  constructor
  · intro hmsg
    simp only [handle_update_signal, hmsg]
  · intro message hmsg
    refine ⟨?_, ?_, ?_⟩
    · intro hsm
      simp only [handle_update_signal, hmsg, hsm]
    · intro sm hsm hidx
      simp only [handle_update_signal, hmsg, hsm, hidx]
    · intro sm i sig hsm hidx hsig hnd
      constructor
      · intro hgood
        obtain ⟨h1, h2, _⟩ := applyChanges_good rule.changes sig hnd hgood
        refine ⟨(applyChanges sig rule.changes).1, ?_, h2⟩
        exact handle_update_signal_applied_eq model rule message sm i sig _
          hmsg hsm hidx hsig (by
            cases happly : applyChanges sig rule.changes with
            | mk a b =>
              rw [happly] at h1
              simp only at h1
              rw [h1])
      · intro hbad
        obtain ⟨h1, h2⟩ := applyChanges_conflict rule.changes sig hnd hbad
        cases happly : applyChanges sig rule.changes with
        | mk a b =>
          cases b with
          | none => rw [happly] at h1; simp at h1
          | some t =>
            obtain ⟨f, e, cur⟩ := t
            refine ⟨"expected " ++ valueStr e ++ " but found " ++ valueStr cur, a, ?_, ?_⟩
            · exact handle_update_signal_conflict_eq model rule message sm i sig a f e cur
                hmsg hsm hidx hsig happly
            · intro fc hfc hb1 hb2
              have := h2 fc hfc hb1 hb2
              rwa [happly] at this

/-- Concrete inputs for the C5 and C10 witnesses. -/
def wSig : DBCSignal :=
  { name := "S", start_bit := 0, length := 8, byte_order := "intel",
    is_signed := false, scale := 1, offset := 0, minimum := none, maximum := none,
    unit := none, comment := none }

def wMsg : DBCMessage :=
  { message_id := 1, name := "M", length := 8, signals := [wSig] }

def wModel : DBCModel := { messages := [(1, wMsg)] }

def wRule : PatchRule :=
  { op := "update_signal", message_id := "0x1", signal_match := some ⟨0, 8⟩,
    changes := [("scale", ⟨Value.vRat 1, Value.vRat 2⟩)] }

/-- Witness for C5: a rule whose "from" value matches the current value
applies and overwrites the field with its "to" value. -/
theorem update_signal_optimistic_witness :
    ∃ sig', handle_update_signal wModel wRule =
        (.applied, wModel.setMsg (hexToNat wRule.message_id)
          { wMsg with signals := wMsg.signals.set 0 sig' }) ∧
      (∀ fc ∈ wRule.changes, wellTyped fc.1 fc.2.toVal = true →
        sig'.getField fc.1 = fc.2.toVal) := by
  have h := ((update_signal_optimistic wModel wRule).2 wMsg (by decide)).2.2
    ⟨0, 8⟩ 0 wSig (by decide) (by decide) (by decide) (by decide)
  exact h.1 (by decide)

/-- C10 — a conflicted `UpdateSignal` rule is not a no-op: every field
listed before the first mismatching field (in the change-map order) has
already been overwritten with its "to" value and the returned model
keeps those writes; the mismatching field and every field after it keep
their prior values. -/
theorem update_signal_conflict_partial_write (model : DBCModel) (rule : PatchRule)
    (message : DBCMessage) (sm : SignalMatch) (i : Nat) (sig : DBCSignal)
    (pre : List (String × Change)) (f : String) (c : Change) (post : List (String × Change))
    (hmsg : model.getMsg (hexToNat rule.message_id) = some message)
    (hsm : rule.signal_match = some sm)
    (hidx : findMatchIdx (signalMatches sm) message.signals = some i)
    (hsig : message.signals.get? i = some sig)
    (hch : rule.changes = pre ++ (f, c) :: post)
    (hnd : (rule.changes.map Prod.fst).Nodup)
    (hpre : ∀ fc ∈ pre, fc.2.fromVal = Value.vNone ∨ sig.getField fc.1 = fc.2.fromVal)
    (htyped : ∀ fc ∈ pre, wellTyped fc.1 fc.2.toVal = true)
    (hb1 : c.fromVal ≠ Value.vNone) (hb2 : sig.getField f ≠ c.fromVal) :
    ∃ reason sig',
      handle_update_signal model rule =
        (.conflict reason, model.setMsg (hexToNat rule.message_id)
          { message with signals := message.signals.set i sig' }) ∧
      (∀ fc ∈ pre, sig'.getField fc.1 = fc.2.toVal) ∧
      sig'.getField f = sig.getField f ∧
      (∀ fc ∈ post, sig'.getField fc.1 = sig.getField fc.1) := by
  have hnd' : ((pre ++ (f, c) :: post).map Prod.fst).Nodup := by rwa [hch] at hnd
  have hndsplit : (pre.map Prod.fst).Nodup ∧ ((f :: post.map Prod.fst)).Nodup ∧
      (pre.map Prod.fst).Disjoint (f :: post.map Prod.fst) := by
    have : (pre.map Prod.fst ++ f :: post.map Prod.fst).Nodup := by
      simpa using hnd'
    exact List.nodup_append.mp this
  have hfnotpre : f ∉ pre.map Prod.fst := by
    intro hf
    exact hndsplit.2.2 hf (List.mem_cons_self _ _)
  have hpostnotpre : ∀ fc ∈ post, fc.1 ∉ pre.map Prod.fst := by
    intro fc hfc hf
    exact hndsplit.2.2 hf (List.mem_cons_of_mem _ (List.mem_map_of_mem Prod.fst hfc))
  have hsplit : applyChanges sig rule.changes =
      (pre.foldl (fun s fc => s.setField fc.1 fc.2.toVal) sig,
       some (f, c.fromVal, sig.getField f)) := by
    rw [hch]
    exact applyChanges_split pre f c post sig hnd' hpre hb1 hb2
  obtain ⟨hover, hkeep⟩ := foldl_setField_getField pre sig hndsplit.1
  refine ⟨"expected " ++ valueStr c.fromVal ++ " but found " ++ valueStr (sig.getField f),
    pre.foldl (fun s fc => s.setField fc.1 fc.2.toVal) sig, ?_, ?_, ?_, ?_⟩
  · exact handle_update_signal_conflict_eq model rule message sm i sig _ f c.fromVal
      (sig.getField f) hmsg hsm hidx hsig hsplit
  · exact fun fc hfc => hover fc hfc (htyped fc hfc)
  · exact hkeep f hfnotpre
  · exact fun fc hfc => hkeep fc.1 (hpostnotpre fc hfc)

/-- Witness for C10: a two-field rule whose first field applies and
whose second mismatches conflicts, keeping the first write. -/
theorem update_signal_conflict_partial_write_witness :
    ∃ reason sig',
      handle_update_signal wModel
          { op := "update_signal", message_id := "0x1", signal_match := some ⟨0, 8⟩,
            changes := [("scale", ⟨Value.vNone, Value.vRat 7⟩),
                        ("length", ⟨Value.vNat 99, Value.vNat 4⟩)] } =
        (.conflict reason, wModel.setMsg (hexToNat "0x1")
          { wMsg with signals := wMsg.signals.set 0 sig' }) ∧
      (∀ fc ∈ [(("scale" : String), (⟨Value.vNone, Value.vRat 7⟩ : Change))],
        sig'.getField fc.1 = fc.2.toVal) ∧
      sig'.getField "length" = wSig.getField "length" ∧
      (∀ fc ∈ ([] : List (String × Change)), sig'.getField fc.1 = wSig.getField fc.1) := by
  exact update_signal_conflict_partial_write wModel
    { op := "update_signal", message_id := "0x1", signal_match := some ⟨0, 8⟩,
      changes := [("scale", ⟨Value.vNone, Value.vRat 7⟩),
                  ("length", ⟨Value.vNat 99, Value.vNat 4⟩)] }
    wMsg ⟨0, 8⟩ 0 wSig
    [("scale", ⟨Value.vNone, Value.vRat 7⟩)] "length" ⟨Value.vNat 99, Value.vNat 4⟩ []
    (by decide) rfl (by decide) (by decide) rfl (by decide) (by decide) (by decide)
    (by decide) (by decide)

/-! ## AddSignalIfMissing lemmas (C3) -/

/-- C3 (amended) — `AddSignalIfMissing` on an existing message: Skipped
when a signal with the name already exists; otherwise a signal is
fabricated and appended, taken with priority (a) from the Reference
Catalog lookup by name, (b) else from the rule's explicit embedded
payload, (c) else as the inert default — and fabrication never fails
(the fabricated-and-appended outcome is always `applied`). -/
theorem add_signal_fabrication (ref_db : ReferenceDB) (model : DBCModel) (rule : PatchRule) :
    (∀ message sig_name, model.getMsg (hexToNat rule.message_id) = some message →
      rule.signal_name = some sig_name → sig_name ≠ "" →
      (message.signals.any (fun s => s.name = sig_name) = true →
        handle_add_signal ref_db model rule = (.skipped "already exists", model)) ∧
      (message.signals.any (fun s => s.name = sig_name) = false →
        handle_add_signal ref_db model rule =
          (.applied, model.setMsg (hexToNat rule.message_id)
            { message with
              signals := message.signals ++ [fabricate_signal ref_db rule sig_name] }))) ∧
    (∀ sig_name template, ref_db.suggest_for_signal sig_name = some template →
      fabricate_signal ref_db rule sig_name = template) ∧
    (∀ sig_name payload, ref_db.suggest_for_signal sig_name = none →
      rule.signal = some payload →
      fabricate_signal ref_db rule sig_name = signal_from_dict payload) ∧
    (∀ sig_name, ref_db.suggest_for_signal sig_name = none → rule.signal = none →
      fabricate_signal ref_db rule sig_name = defaultSignal sig_name) := by
  refine ⟨?_, ?_, ?_, ?_⟩
  · intro message sig_name hmsg hname hne
    constructor
    · intro hex
      simp only [handle_add_signal, hmsg, hname, if_neg hne, hex, if_pos]
    · intro hnotex
      simp only [handle_add_signal, hmsg, hname, if_neg hne, hnotex]
      rw [if_neg (by simp)]
  · intro sig_name template h
    unfold fabricate_signal
    rw [h]
  · intro sig_name payload h hp
    unfold fabricate_signal
    rw [h, hp]
  · intro sig_name h hp
    unfold fabricate_signal
    rw [h, hp]

/-- Witness for C3's amended theorem: empty catalog, no payload — the
inert default is appended. -/
theorem add_signal_fabrication_witness :
    handle_add_signal {} wModel
        { op := "add_signal_if_missing", message_id := "0x1",
          signal_name := some "NewSig" } =
      (.applied, wModel.setMsg (hexToNat "0x1")
        { wMsg with signals := wMsg.signals ++
            [fabricate_signal {}
              { op := "add_signal_if_missing", message_id := "0x1",
                signal_name := some "NewSig" } "NewSig"] }) := by
  exact ((add_signal_fabrication {} wModel
    { op := "add_signal_if_missing", message_id := "0x1",
      signal_name := some "NewSig" }).1 wMsg "NewSig" (by decide) rfl
    (by decide)).2 (by decide)

def c3template : DBCSignal := { wSig with name := "Spd", length := 16 }

def c3payload : DBCSignal := { wSig with name := "Spd", length := 32 }

def c3refdb : ReferenceDB := { signals := [("Spd", c3template)] }

def c3rule : PatchRule :=
  { op := "add_signal_if_missing", message_id := "0x1",
    signal_name := some "Spd", signal := some c3payload }

/-- C3 counterexample — with both a catalog entry and an explicit
embedded payload present, the appended signal is the CATALOG entry, not
the payload the claim gives priority (a) to. -/
theorem add_signal_priority_counterexample :
    handle_add_signal c3refdb wModel c3rule =
      (.applied, wModel.setMsg (hexToNat "0x1")
        { wMsg with signals := wMsg.signals ++ [c3template] }) ∧
    c3template ≠ signal_from_dict c3payload := by
  constructor
  · decide
  · decide

/-! ## Diff-rule shape lemmas -/

theorem compare_signal_mem (msg : DBCMessage) (rs cs : DBCSignal) (r : PatchRule)
    (hr : r ∈ compare_signal msg rs cs) : r.op = "update_signal" := by
  simp only [compare_signal] at hr
  split at hr
  · simp at hr
  · rw [List.mem_singleton] at hr
    rw [hr]
    rfl

theorem compare_message_mem (rm cm : DBCMessage) (r : PatchRule)
    (hr : r ∈ compare_message rm cm) :
    r.op = "add_signal_if_missing" ∨ r.op = "remove_signal" ∨
    r.op = "update_message_senders" ∨ r.op = "update_signal" ∨
    r.op = "rename_signal" := by
  unfold compare_message at hr
  simp only [List.mem_append] at hr
  rcases hr with (((h | h) | h) | h) | h
  · rcases List.mem_map.mp h with ⟨n, _, he⟩
    left; rw [← he]; rfl
  · rcases List.mem_map.mp h with ⟨n, _, he⟩
    right; left; rw [← he]; rfl
  · split at h
    · rw [List.mem_singleton] at h
      right; right; left; rw [h]; rfl
    · simp at h
  · rcases List.mem_flatMap.mp h with ⟨n, _, hn⟩
    split at hn
    · right; right; right; left
      exact compare_signal_mem _ _ _ r hn
    · simp at hn
  · rcases List.mem_map.mp h with ⟨p, _, he⟩
    right; right; right; right; rw [← he]; rfl

theorem generate_rules_decomp (raw cleaned : DBCModel) :
    (generate_patch raw cleaned).rules =
      ((sortedSet ((cleaned.messages.map (·.1)).filter
          (fun i => ¬ (raw.messages.map (·.1)).contains i))).map addMessageRule) ++
      ((sortedSet ((raw.messages.map (·.1)).filter
          (fun i => ¬ (cleaned.messages.map (·.1)).contains i))).map removeMessageRule) ++
      ((sortedSet ((cleaned.messages.map (·.1)).filter
          (fun i => (raw.messages.map (·.1)).contains i))).flatMap
        (fun i =>
          match assocGet raw.messages i, assocGet cleaned.messages i with
          | some rm, some cm => compare_message rm cm
          | _, _ => [])) := rfl

/-! ## AddMessage lemmas (C7) -/

/-- The placeholder `_handle_add_message` fabricates when neither a
payload nor a catalog entry exists. -/
def placeholderMessage (i : Nat) : DBCMessage :=
  { message_id := i, name := "MSG_" ++ natToHex i, length := 8,
    is_extended_frame := false, cycle_time := none, comment := none,
    attributes := [], signals := [] }

/-- C7 — a message id present only in the cleaned model yields exactly
one `AddMessage` rule; applying that rule (no payload) with no catalog
match appends a zero-signal 8-byte placeholder at that id; an existing
id is Skipped with the model unchanged. -/
theorem add_message_placeholder (ref_db : ReferenceDB) (raw cleaned : DBCModel) (i : Nat)
    (h1 : i ∈ cleaned.messages.map (·.1)) (h2 : i ∉ raw.messages.map (·.1)) :
    ((generate_patch raw cleaned).rules.countP
        (fun r => decide (r.op = "add_message" ∧ r.message_id = natToHex i)) = 1) ∧
    (addMessageRule i ∈ (generate_patch raw cleaned).rules) ∧
    (∀ model : DBCModel, assocHas model.messages i = false →
      ref_db.suggest_message i "" = none →
      handle_add_message ref_db model (addMessageRule i) =
        (.applied, { model with
          messages := model.messages ++ [(i, placeholderMessage i)] })) ∧
    (∀ model : DBCModel, assocHas model.messages i = true →
      handle_add_message ref_db model (addMessageRule i) =
        (.skipped "message exists", model)) := by
  have hmem : i ∈ sortedSet ((cleaned.messages.map (·.1)).filter
      (fun j => ¬ (raw.messages.map (·.1)).contains j)) := by
    rw [mem_sortedSet, List.mem_filter]
    refine ⟨h1, ?_⟩
    simpa using h2
  refine ⟨?_, ?_, ?_, ?_⟩
  · rw [generate_rules_decomp, List.countP_append, List.countP_append]
    have hA : ((sortedSet ((cleaned.messages.map (·.1)).filter
        (fun j => ¬ (raw.messages.map (·.1)).contains j))).map addMessageRule).countP
        (fun r => decide (r.op = "add_message" ∧ r.message_id = natToHex i)) = 1 := by
      rw [List.countP_map]
      have hcong : ∀ j ∈ sortedSet ((cleaned.messages.map (·.1)).filter
          (fun j => ¬ (raw.messages.map (·.1)).contains j)),
          (((fun r => decide (r.op = "add_message" ∧ r.message_id = natToHex i)) ∘
            addMessageRule) j = true ↔
          (j == i) = true) := by
        intro j _
        show decide (("add_message" : String) = "add_message" ∧ natToHex j = natToHex i)
            = true ↔ (j == i) = true
        simp only [decide_eq_true_eq, beq_iff_eq, true_and]
        exact ⟨fun he => natToHex_injective he, fun he => he ▸ rfl⟩
      rw [List.countP_congr hcong]
      have hc := List.count_eq_one_of_mem (sortedSet_nodup _) hmem
      rw [← hc]
      rfl
    have hB : ((sortedSet ((raw.messages.map (·.1)).filter
        (fun j => ¬ (cleaned.messages.map (·.1)).contains j))).map removeMessageRule).countP
        (fun r => decide (r.op = "add_message" ∧ r.message_id = natToHex i)) = 0 := by
      rw [List.countP_eq_zero]
      intro r hr
      rcases List.mem_map.mp hr with ⟨j, _, he⟩
      rw [← he]
      simp [removeMessageRule]
    have hC : ((sortedSet ((cleaned.messages.map (·.1)).filter
        (fun j => (raw.messages.map (·.1)).contains j))).flatMap
          (fun j =>
            match assocGet raw.messages j, assocGet cleaned.messages j with
            | some rm, some cm => compare_message rm cm
            | _, _ => [])).countP
        (fun r => decide (r.op = "add_message" ∧ r.message_id = natToHex i)) = 0 := by
      rw [List.countP_eq_zero]
      intro r hr
      rcases List.mem_flatMap.mp hr with ⟨j, _, hj⟩
      have hop : r.op ≠ "add_message" := by
        revert hj
        cases assocGet raw.messages j with
        | none => intro hj; simp at hj
        | some rm =>
          cases assocGet cleaned.messages j with
          | none => intro hj; simp at hj
          | some cm =>
            intro hj
            rcases compare_message_mem rm cm r hj with h | h | h | h | h <;>
              (rw [h]; decide)
      simp [hop]
    rw [hA, hB, hC]
  · rw [generate_rules_decomp]
    refine List.mem_append.mpr (Or.inl (List.mem_append.mpr (Or.inl ?_)))
    exact List.mem_map.mpr ⟨i, hmem, rfl⟩
  · intro model hnotin hsuggest
    have hne : natToHex i ≠ "" := natToHex_ne_empty i
    simp only [handle_add_message, addMessageRule, hne, hexToNat_natToHex,
      hnotin, hsuggest, Option.getD_none, if_false, Bool.false_eq_true, ite_false]
    rw [assocSet_of_not_has _ _ _ hnotin]
    rfl
  · intro model hin
    have hne : natToHex i ≠ "" := natToHex_ne_empty i
    simp only [handle_add_message, addMessageRule, hne, hexToNat_natToHex, hin,
      if_false, ite_false, if_true, ite_true]

/-- Witness for C7 at concrete models. -/
theorem add_message_placeholder_witness :
    handle_add_message {} { messages := [] } (addMessageRule 2) =
      (.applied, { messages := [] ++ [(2, placeholderMessage 2)] : DBCModel }) := by
  have h := (add_message_placeholder {} { messages := [] }
    { messages := [(2, wMsg)] } 2 (by decide) (by decide)).2.2.1
    { messages := [] } (by decide) (by decide)
  exact h

/-! ## Self-diff lemmas (C2) -/

theorem flatMap_nil_of {α β : Type} (f : α → List β) (l : List α)
    (h : ∀ a ∈ l, f a = []) : l.flatMap f = [] := by
  induction l with
  | nil => rfl
  | cons a as ih =>
    rw [List.flatMap_cons, h a (List.mem_cons_self _ _), List.nil_append]
    exact ih (fun a ha => h a (List.mem_cons_of_mem _ ha))

theorem filter_not_contains_self {α : Type} [BEq α] [LawfulBEq α] (l : List α) :
    l.filter (fun a => ¬ l.contains a) = [] := by
  rw [List.filter_eq_nil]
  intro a ha
  simp [ha]

theorem signalChanges_self (s : DBCSignal) : signalChanges s s = [] := by
  unfold signalChanges
  rw [List.filterMap_eq_nil]
  intro f _
  simp

theorem compare_signal_self (msg : DBCMessage) (s : DBCSignal) :
    compare_signal msg s s = [] := by
  simp [compare_signal, signalChanges_self]

/-- No two differently-named signals of the message share a
`(start_bit, length, byte_order)` triple. -/
def noCrossNameTriple (m : DBCMessage) : Prop :=
  ∀ r ∈ m.signals, ∀ c ∈ m.signals, r.name ≠ c.name →
    ¬ (r.start_bit = c.start_bit ∧ r.length = c.length ∧ r.byte_order = c.byte_order)

theorem detect_renames_nil (raw_signals clean_signals : List DBCSignal)
    (h : ∀ r ∈ raw_signals, ∀ c ∈ clean_signals, r.name ≠ c.name →
      ¬ (r.start_bit = c.start_bit ∧ r.length = c.length ∧ r.byte_order = c.byte_order)) :
    detect_renames raw_signals clean_signals = [] := by
  unfold detect_renames
  apply flatMap_nil_of
  intro r hr
  have : clean_signals.filter (fun c =>
      r.name ≠ c.name ∧ r.start_bit = c.start_bit ∧ r.length = c.length ∧
      r.byte_order = c.byte_order) = [] := by
    rw [List.filter_eq_nil]
    intro c hc
    simp only [decide_eq_true_eq, not_and]
    intro hname
    exact fun hsb hl => by
      have := h r hr c hc hname
      intro hbo
      exact this ⟨hsb, hl, hbo⟩
  rw [this]
  rfl

instance (m : DBCMessage) : Decidable (noCrossNameTriple m) := by
  unfold noCrossNameTriple
  infer_instance

theorem compare_message_self (m : DBCMessage) (h : noCrossNameTriple m) :
    compare_message m m = [] := by
  simp only [compare_message]
  rw [filter_not_contains_self (sigNames m.signals)]
  rw [detect_renames_nil m.signals m.signals h]
  rw [if_neg (show ¬ (m.senders ≠ m.senders) by simp)]
  simp only [List.map_nil, List.nil_append, List.append_nil]
  apply flatMap_nil_of
  intro n _
  cases sigByName m.signals n with
  | none => rfl
  | some s => exact compare_signal_self m s

theorem assocGet_isSome_of_mem_keys {κ α : Type} [DecidableEq κ]
    (l : List (κ × α)) (k : κ) (h : k ∈ l.map Prod.fst) : ∃ v, assocGet l k = some v := by
  apply assocHas_get_isSome
  rcases List.mem_map.mp h with ⟨p, hp, he⟩
  rw [List.any_eq_true]
  exact ⟨p, hp, by simp [he]⟩

/-- C2 (amended) — `generate_patch(M, M)` returns an empty rule list
for every model in which no two differently-named signals of a message
share a `(start_bit, length, byte_order)` triple.  (With a shared
triple the rename cross-product scan pairs the two signals and emits
`RenameSignal` rules even on a self-diff; see the counterexample.) -/
theorem generate_self_empty (M : DBCModel)
    (h : ∀ p ∈ M.messages, noCrossNameTriple p.2) :
    (generate_patch M M).rules = [] := by
  rw [generate_rules_decomp]
  rw [filter_not_contains_self (M.messages.map (·.1))]
  have hcommon : (sortedSet ((M.messages.map (·.1)).filter
      (fun i => (M.messages.map (·.1)).contains i))).flatMap
        (fun i =>
          match assocGet M.messages i, assocGet M.messages i with
          | some rm, some cm => compare_message rm cm
          | _, _ => []) = [] := by
    apply flatMap_nil_of
    intro i hi
    have hmemi : i ∈ M.messages.map (·.1) := by
      rw [mem_sortedSet] at hi
      exact (List.mem_filter.mp hi).1
    rcases assocGet_isSome_of_mem_keys M.messages i hmemi with ⟨m, hm⟩
    rw [hm]
    exact compare_message_self m (h (i, m) (assocGet_mem M.messages i m hm))
  rw [hcommon]
  rfl

/-- Witness for C2's amended theorem. -/
theorem generate_self_empty_witness : (generate_patch wModel wModel).rules = [] :=
  generate_self_empty wModel (by decide)

def c2sigB : DBCSignal := { wSig with name := "B" }

def c2msg : DBCMessage :=
  { message_id := 1, name := "M", length := 8, signals := [wSig, c2sigB] }

def c2model : DBCModel := { messages := [(1, c2msg)] }

/-- C2 counterexample — a valid model with two differently-named
signals sharing a `(start_bit, length, byte_order)` triple: the
self-diff is NOT empty (two `RenameSignal` rules are emitted). -/
theorem generate_self_counterexample :
    wSig.name ≠ c2sigB.name ∧
    wSig.start_bit = c2sigB.start_bit ∧ wSig.length = c2sigB.length ∧
    wSig.byte_order = c2sigB.byte_order ∧
    (generate_patch c2model c2model).rules ≠ [] := by
  refine ⟨by decide, by decide, by decide, by decide, ?_⟩
  decide

/-! ## Rename-detection lemmas (C6) -/

/-- C6 (amended) — the `RenameSignal` rules a message comparison emits
are exactly one rule per `(rawSignal, cleanedSignal)` pair drawn from
the FULL signal lists (signals already paired by an identical name
included) whose names differ and whose `(start_bit, length,
byte_order)` triples match, keyed by the raw signal's bit locator and
carrying the cleaned signal's name. -/
theorem rename_rules_full_cross_product (rm cm : DBCMessage) :
    (compare_message rm cm).filter (fun r => r.op = "rename_signal") =
      (detect_renames rm.signals cm.signals).map
        (fun p => renameRule cm.hex_id p.1 p.2.name) := by
  simp only [compare_message]
  rw [List.filter_append, List.filter_append, List.filter_append, List.filter_append]
  have hA : ∀ (names : List String),
      (names.map (addSignalRule cm.hex_id)).filter
        (fun r => r.op = "rename_signal") = [] := by
    intro names
    rw [List.filter_eq_nil]
    intro r hr
    rcases List.mem_map.mp hr with ⟨n, _, he⟩
    rw [← he]
    simp [addSignalRule]
  have hB : ∀ (names : List String),
      (names.map (removeSignalRule cm.hex_id)).filter
        (fun r => r.op = "rename_signal") = [] := by
    intro names
    rw [List.filter_eq_nil]
    intro r hr
    rcases List.mem_map.mp hr with ⟨n, _, he⟩
    rw [← he]
    simp [removeSignalRule]
  have hC : (if rm.senders ≠ cm.senders then
      [sendersRule cm.hex_id rm.senders cm.senders]
      else []).filter (fun r => r.op = "rename_signal") = [] := by
    split <;> simp [sendersRule]
  have hD : (((sigNames rm.signals).filter
      (fun n => (sigNames cm.signals).contains n)).flatMap
        (fun n => match sigByName rm.signals n, sigByName cm.signals n with
          | some rs, some cs => compare_signal rm rs cs
          | _, _ => [])).filter (fun r => r.op = "rename_signal") = [] := by
    rw [List.filter_eq_nil]
    intro r hr
    rcases List.mem_flatMap.mp hr with ⟨n, _, hn⟩
    have hop : r.op = "update_signal" := by
      revert hn
      cases sigByName rm.signals n with
      | none => intro hn; simp at hn
      | some rs =>
        cases sigByName cm.signals n with
        | none => intro hn; simp at hn
        | some cs => exact fun hn => compare_signal_mem rm rs cs r hn
    simp [hop]
  have hE : ((detect_renames rm.signals cm.signals).map
      (fun p => renameRule cm.hex_id p.1 p.2.name)).filter
        (fun r => r.op = "rename_signal") =
      (detect_renames rm.signals cm.signals).map
        (fun p => renameRule cm.hex_id p.1 p.2.name) := by
    rw [List.filter_eq_self]
    intro r hr
    rcases List.mem_map.mp hr with ⟨p, _, he⟩
    rw [← he]
    simp [renameRule]
  rw [hA, hB, hC, hD, hE]
  simp

def c6sigB : DBCSignal := { wSig with name := "B", start_bit := 8 }

def c6rawMsg : DBCMessage :=
  { message_id := 1, name := "M", length := 8, signals := [wSig, c6sigB] }

def c6cleanMsg : DBCMessage :=
  { message_id := 1, name := "M", length := 8,
    signals := [wSig, { c6sigB with start_bit := 0 }] }

/-- C6 counterexample — both messages have the same signal-name sets,
so the residual sets are empty and the claim predicts no `RenameSignal`
rule; the code still emits one, pairing the name-paired raw signal "S"
with the differently-named moved signal "B". -/
theorem rename_not_residual_counterexample :
    sigNames c6rawMsg.signals = sigNames c6cleanMsg.signals ∧
    (compare_message c6rawMsg c6cleanMsg).filter
      (fun r => r.op = "rename_signal") ≠ [] := by
  constructor
  · decide
  · decide

/-! ## Name/locator helper lemmas (C4, C1) -/

theorem sigNames_eq_map (sigs : List DBCSignal)
    (h : (sigs.map (·.name)).Nodup) : sigNames sigs = sigs.map (·.name) := by
  induction sigs with
  | nil => rfl
  | cons s rest ih =>
    simp only [List.map_cons, List.nodup_cons] at h
    simp only [sigNames]
    rw [ih h.2, List.map_cons]
    congr 1
    rw [List.filter_eq_self]
    intro n hn
    have : n ≠ s.name := fun he => h.1 (he ▸ hn)
    simp [this]

theorem sigByName_cons (a : DBCSignal) (l : List DBCSignal) (n : String) :
    sigByName (a :: l) n =
      (sigByName l n).or (if a.name = n then some a else none) := by
  have key : ∀ (l : List DBCSignal) (acc : Option DBCSignal),
      l.foldl (fun acc s => if s.name = n then some s else acc) acc =
        (sigByName l n).or acc := by
    intro l
    induction l with
    | nil => intro acc; simp [sigByName]
    | cons b bs ih =>
      intro acc
      show bs.foldl _ (if b.name = n then some b else acc) = _
      rw [ih]
      have hb : sigByName (b :: bs) n =
          bs.foldl (fun acc s => if s.name = n then some s else acc)
            (if b.name = n then some b else none) := rfl
      rw [hb, ih]
      by_cases h : b.name = n
      · simp [h]
        cases sigByName bs n <;> simp
      · simp [h]
  exact key l (if a.name = n then some a else none)

theorem sigByName_eq_none (l : List DBCSignal) (n : String)
    (h : n ∉ l.map (·.name)) : sigByName l n = none := by
  induction l with
  | nil => rfl
  | cons a as ih =>
    simp only [List.map_cons, List.mem_cons, not_or] at h
    rw [sigByName_cons, ih h.2]
    have hne : ¬ a.name = n := fun he => h.1 he.symm
    simp [hne]

theorem sigByName_of_nodup_mem (sigs : List DBCSignal) (s : DBCSignal)
    (h : (sigs.map (·.name)).Nodup) (hs : s ∈ sigs) :
    sigByName sigs s.name = some s := by
  induction sigs with
  | nil => simp at hs
  | cons a rest ih =>
    simp only [List.map_cons, List.nodup_cons] at h
    rw [sigByName_cons]
    rcases List.mem_cons.mp hs with he | hmem
    · subst he
      rw [sigByName_eq_none rest s.name h.1]
      simp
    · rw [ih h.2 hmem]
      simp

theorem sigByName_mem (l : List DBCSignal) (n : String) (s : DBCSignal)
    (h : sigByName l n = some s) : s ∈ l ∧ s.name = n := by
  induction l with
  | nil => simp [sigByName] at h
  | cons a as ih =>
    rw [sigByName_cons] at h
    cases hs : sigByName as n with
    | some t =>
      rw [hs] at h
      rw [show (some t).or (if a.name = n then some a else none) = some t from rfl,
        Option.some_inj] at h
      subst h
      exact ⟨List.mem_cons_of_mem _ (ih hs).1, (ih hs).2⟩
    | none =>
      rw [hs] at h
      simp only [Option.none_or] at h
      by_cases ha : a.name = n
      · rw [if_pos ha] at h
        rw [Option.some_inj] at h
        subst h
        exact ⟨List.mem_cons_self _ _, ha⟩
      · rw [if_neg ha] at h
        simp at h

theorem findMatchIdx_cons {α : Type} (p : α → Bool) (a : α) (l : List α) :
    findMatchIdx p (a :: l) =
      if p a then some 0 else (findMatchIdx p l).map (· + 1) := rfl

theorem findMatchIdx_append {α : Type} (p : α → Bool) (pre : List α) (a : α)
    (suf : List α) (hpre : ∀ x ∈ pre, p x = false) (ha : p a = true) :
    findMatchIdx p (pre ++ a :: suf) = some pre.length := by
  induction pre with
  | nil => simp [findMatchIdx_cons, ha]
  | cons b bs ih =>
    rw [List.cons_append, findMatchIdx_cons,
      if_neg (by rw [hpre b (List.mem_cons_self _ _)]; exact Bool.false_ne_true),
      ih (fun x hx => hpre x (List.mem_cons_of_mem _ hx))]
    rfl

theorem get?_append_length {α : Type} (pre : List α) (a : α) (suf : List α) :
    (pre ++ a :: suf).get? pre.length = some a := by
  induction pre with
  | nil => rfl
  | cons b bs ih => simpa using ih

theorem set_append_length {α : Type} (pre : List α) (a b : α) (suf : List α) :
    (pre ++ a :: suf).set pre.length b = pre ++ b :: suf := by
  induction pre with
  | nil => rfl
  | cons c cs ih => simpa using ih

theorem assocGet_eq_none_of_not_mem_keys {κ α : Type} [DecidableEq κ]
    (l : List (κ × α)) (k : κ) (h : k ∉ l.map Prod.fst) : assocGet l k = none := by
  apply assocGet_eq_none_of_not_any
  rw [List.any_eq_false]
  intro p hp
  simp only [decide_eq_true_eq]
  exact fun he => h (he ▸ List.mem_map_of_mem Prod.fst hp)

theorem assocGet_mid_self {κ α : Type} [DecidableEq κ]
    (pre post : List (κ × α)) (i : κ) (x : α) (h : i ∉ pre.map Prod.fst) :
    assocGet (pre ++ (i, x) :: post) i = some x := by
  rw [assocGet_append, assocGet_eq_none_of_not_mem_keys pre i h]
  simp [assocGet_cons]

theorem assocGet_mid_ne {κ α : Type} [DecidableEq κ]
    (pre post : List (κ × α)) (i j : κ) (x y : α) (h : j ≠ i) :
    assocGet (pre ++ (i, x) :: post) j = assocGet (pre ++ (i, y) :: post) j := by
  rw [assocGet_append, assocGet_append, assocGet_cons, assocGet_cons]
  have hne : ¬ (i, x).1 = j := fun he => h he.symm
  have hne' : ¬ (i, y).1 = j := fun he => h he.symm
  rw [if_neg hne, if_neg hne']

theorem map_replace_id {κ α : Type} [DecidableEq κ]
    (l : List (κ × α)) (i : κ) (y : α) (h : i ∉ l.map Prod.fst) :
    l.map (fun p => if p.1 = i then (i, y) else p) = l := by
  induction l with
  | nil => rfl
  | cons p ps ih =>
    simp only [List.map_cons, List.mem_cons, not_or] at h
    have hne : ¬ p.1 = i := fun he => h.1 he.symm
    rw [List.map_cons, if_neg hne, ih h.2]

theorem assocSet_mid {κ α : Type} [DecidableEq κ]
    (pre post : List (κ × α)) (i : κ) (x y : α)
    (hpre : i ∉ pre.map Prod.fst) (hpost : i ∉ post.map Prod.fst) :
    assocSet (pre ++ (i, x) :: post) i y = pre ++ (i, y) :: post := by
  unfold assocSet
  rw [if_pos (by
    rw [List.any_eq_true]
    exact ⟨(i, x), by simp, by simp⟩)]
  rw [List.map_append, List.map_cons, map_replace_id pre i y hpre,
    map_replace_id post i y hpost]
  simp

theorem flatMap_single {α : Type} (l : List Nat) (f : Nat → List α) (i : Nat)
    (hnd : l.Nodup) (hmem : i ∈ l) (h : ∀ j ∈ l, j ≠ i → f j = []) :
    l.flatMap f = f i := by
  induction l with
  | nil => simp at hmem
  | cons a as ih =>
    rw [List.flatMap_cons]
    rw [List.nodup_cons] at hnd
    rcases List.mem_cons.mp hmem with he | hmem'
    · subst he
      rw [flatMap_nil_of f as (fun j hj => h j (List.mem_cons_of_mem _ hj)
        (fun hji => hnd.1 (hji ▸ hj)))]
      simp
    · rw [h a (List.mem_cons_self _ _) (fun hai => hnd.1 (hai ▸ hmem'))]
      rw [List.nil_append]
      exact ih hnd.2 hmem' (fun j hj hji => h j (List.mem_cons_of_mem _ hj) hji)

/-- Pairwise-distinct `(start_bit, length)` bit locators. -/
def distinctLocators (sigs : List DBCSignal) : Prop :=
  sigs.Pairwise (fun a b => ¬ (a.start_bit = b.start_bit ∧ a.length = b.length))

instance (sigs : List DBCSignal) : Decidable (distinctLocators sigs) := by
  unfold distinctLocators
  infer_instance

theorem distinctLocators_forall {sigs : List DBCSignal} (h : distinctLocators sigs)
    {a b : DBCSignal} (ha : a ∈ sigs) (hb : b ∈ sigs) (hne : a ≠ b) :
    ¬ (a.start_bit = b.start_bit ∧ a.length = b.length) := by
  refine List.Pairwise.forall ?_ h ha hb hne
  intro x y hr hc
  exact hr ⟨hc.1.symm, hc.2.symm⟩

theorem noCrossNameTriple_of_distinctLocators (m : DBCMessage)
    (h : distinctLocators m.signals) : noCrossNameTriple m := by
  intro r hr c hc hname htriple
  exact distinctLocators_forall h hr hc (fun he => hname (he ▸ rfl)) ⟨htriple.1, htriple.2.1⟩

/-! ## Rename scenario lemmas (C4) -/

theorem compare_message_rename
    (rm : DBCMessage) (sp ss : List DBCSignal) (old : DBCSignal) (newName : String)
    (hsig : rm.signals = sp ++ old :: ss)
    (hnd : ((sp ++ old :: ss).map (·.name)).Nodup)
    (hnew : newName ∉ (sp ++ old :: ss).map (·.name))
    (hloc : distinctLocators (sp ++ old :: ss)) :
    compare_message rm { rm with signals := sp ++ { old with name := newName } :: ss } =
      [addSignalRule rm.hex_id newName, removeSignalRule rm.hex_id old.name,
       renameRule rm.hex_id old newName] := by
  have hndm : (old.name :: ((sp ++ ss).map (·.name))).Nodup := by
    have := hnd
    rw [List.map_append, List.map_cons] at this
    rw [List.map_append]
    exact List.nodup_middle.mp this
  have holdnot : old.name ∉ (sp ++ ss).map (·.name) := (List.nodup_cons.mp hndm).1
  have hndss : ((sp ++ ss).map (·.name)).Nodup := (List.nodup_cons.mp hndm).2
  have hnewss : newName ∉ (sp ++ ss).map (·.name) := by
    intro hc
    apply hnew
    rw [List.map_append] at hc
    rw [List.map_append, List.map_cons]
    rcases List.mem_append.mp hc with hc | hc
    · exact List.mem_append_left _ hc
    · exact List.mem_append_right _ (List.mem_cons_of_mem _ hc)
  have holdnew : old.name ≠ newName := by
    intro he
    apply hnew
    rw [← he, List.map_append, List.map_cons]
    exact List.mem_append_right _ (List.mem_cons_self _ _)
  have hndcl : ((sp ++ { old with name := newName } :: ss).map (·.name)).Nodup := by
    rw [List.map_append, List.map_cons]
    rw [show ({ old with name := newName } : DBCSignal).name = newName from rfl]
    refine List.nodup_middle.mpr ?_
    rw [← List.map_append]
    exact List.nodup_cons.mpr ⟨hnewss, hndss⟩
  have hex : ({ rm with signals := sp ++ { old with name := newName } :: ss }
      : DBCMessage).hex_id = rm.hex_id := rfl
  simp only [compare_message, hex, hsig]
  rw [sigNames_eq_map _ hnd, sigNames_eq_map _ hndcl]
  rw [List.map_append, List.map_append, List.map_cons, List.map_cons]
  rw [show ({ old with name := newName } : DBCSignal).name = newName from rfl]
  have hspsub : ∀ n ∈ sp.map (·.name), n ∈ (sp ++ ss).map (·.name) := by
    intro n hn
    rw [List.map_append]
    exact List.mem_append_left _ hn
  have hsssub : ∀ n ∈ ss.map (·.name), n ∈ (sp ++ ss).map (·.name) := by
    intro n hn
    rw [List.map_append]
    exact List.mem_append_right _ hn
  -- add rules: exactly the new name survives the filter
  have hadd : (sp.map (·.name) ++ newName :: ss.map (·.name)).filter
      (fun n => ¬ (sp.map (·.name) ++ old.name :: ss.map (·.name)).contains n) =
      [newName] := by
    rw [List.filter_append, List.filter_cons]
    have h1 : (sp.map (·.name)).filter
        (fun n => ¬ (sp.map (·.name) ++ old.name :: ss.map (·.name)).contains n) = [] := by
      rw [List.filter_eq_nil]
      intro n hn
      simp [List.mem_append.mpr (Or.inl hn)]
    have h2 : (ss.map (·.name)).filter
        (fun n => ¬ (sp.map (·.name) ++ old.name :: ss.map (·.name)).contains n) = [] := by
      rw [List.filter_eq_nil]
      intro n hn
      simp [List.mem_append.mpr (Or.inr (List.mem_cons_of_mem _ hn))]
    have h3 : newName ∉ sp.map (·.name) ++ old.name :: ss.map (·.name) := by
      intro hc
      apply hnew
      rw [List.map_append, List.map_cons]
      exact hc
    rw [h1, h2, if_pos (by simpa using h3)]
    rfl
  -- remove rules: exactly the old name survives the filter
  have hremove : (sp.map (·.name) ++ old.name :: ss.map (·.name)).filter
      (fun n => ¬ (sp.map (·.name) ++ newName :: ss.map (·.name)).contains n) =
      [old.name] := by
    rw [List.filter_append, List.filter_cons]
    have h1 : (sp.map (·.name)).filter
        (fun n => ¬ (sp.map (·.name) ++ newName :: ss.map (·.name)).contains n) = [] := by
      rw [List.filter_eq_nil]
      intro n hn
      simp [List.mem_append.mpr (Or.inl hn)]
    have h2 : (ss.map (·.name)).filter
        (fun n => ¬ (sp.map (·.name) ++ newName :: ss.map (·.name)).contains n) = [] := by
      rw [List.filter_eq_nil]
      intro n hn
      simp [List.mem_append.mpr (Or.inr (List.mem_cons_of_mem _ hn))]
    have h3 : old.name ∉ sp.map (·.name) ++ newName :: ss.map (·.name) := by
      intro hc
      rcases List.mem_append.mp hc with hc | hc
      · exact holdnot (by rw [List.map_append]; exact List.mem_append_left _ hc)
      · rcases List.mem_cons.mp hc with hc | hc
        · exact holdnew hc
        · exact holdnot (by rw [List.map_append]; exact List.mem_append_right _ hc)
    rw [h1, h2, if_pos (by simpa using h3)]
    rfl
  -- senders unchanged
  have hsend : (if rm.senders ≠
      ({ rm with signals := sp ++ { old with name := newName } :: ss }
        : DBCMessage).senders then
      [sendersRule rm.hex_id rm.senders
        ({ rm with signals := sp ++ { old with name := newName } :: ss }
          : DBCMessage).senders] else []) = [] := by
    rw [if_neg]
    simp
  -- common names: identical signals on both sides
  have hcommon : (sp.map (·.name) ++ old.name :: ss.map (·.name)).filter
      (fun n => (sp.map (·.name) ++ newName :: ss.map (·.name)).contains n) =
      sp.map (·.name) ++ ss.map (·.name) := by
    rw [List.filter_append, List.filter_cons]
    have h1 : (sp.map (·.name)).filter
        (fun n => (sp.map (·.name) ++ newName :: ss.map (·.name)).contains n) =
        sp.map (·.name) := by
      rw [List.filter_eq_self]
      intro n hn
      simp [List.mem_append.mpr (Or.inl hn)]
    have h2 : (ss.map (·.name)).filter
        (fun n => (sp.map (·.name) ++ newName :: ss.map (·.name)).contains n) =
        ss.map (·.name) := by
      rw [List.filter_eq_self]
      intro n hn
      simp [List.mem_append.mpr (Or.inr (List.mem_cons_of_mem _ hn))]
    have h3 : old.name ∉ sp.map (·.name) ++ newName :: ss.map (·.name) := by
      intro hc
      rcases List.mem_append.mp hc with hc | hc
      · exact holdnot (by rw [List.map_append]; exact List.mem_append_left _ hc)
      · rcases List.mem_cons.mp hc with hc | hc
        · exact holdnew hc
        · exact holdnot (by rw [List.map_append]; exact List.mem_append_right _ hc)
    rw [h1, h2, if_neg (by simpa using h3)]
  have hupdates : (sp.map (·.name) ++ ss.map (·.name)).flatMap
      (fun n =>
        match sigByName (sp ++ old :: ss) n,
          sigByName (sp ++ { old with name := newName } :: ss) n with
        | some rs, some cs => compare_signal rm rs cs
        | _, _ => []) = [] := by
    apply flatMap_nil_of
    intro n hn
    have hn' : n ∈ (sp ++ ss).map (·.name) := by
      rw [List.map_append]
      exact hn
    rcases List.mem_map.mp hn' with ⟨s, hs, hsn⟩
    have hsraw : s ∈ sp ++ old :: ss := by
      rcases List.mem_append.mp hs with hs | hs
      · exact List.mem_append_left _ hs
      · exact List.mem_append_right _ (List.mem_cons_of_mem _ hs)
    have hscl : s ∈ sp ++ { old with name := newName } :: ss := by
      rcases List.mem_append.mp hs with hs | hs
      · exact List.mem_append_left _ hs
      · exact List.mem_append_right _ (List.mem_cons_of_mem _ hs)
    rw [← hsn, sigByName_of_nodup_mem _ s hnd hsraw,
      sigByName_of_nodup_mem _ s hndcl hscl]
    exact compare_signal_self rm s
  -- rename detection: exactly the (old, renamed) pair
  have hrenames : detect_renames (sp ++ old :: ss)
      (sp ++ { old with name := newName } :: ss) = [(old, { old with name := newName })] := by
    unfold detect_renames
    have hfilter : ∀ r ∈ sp ++ old :: ss, r ≠ old →
        (sp ++ { old with name := newName } :: ss).filter (fun c =>
          r.name ≠ c.name ∧ r.start_bit = c.start_bit ∧ r.length = c.length ∧
          r.byte_order = c.byte_order) = [] := by
      intro r hr hrold
      rw [List.filter_eq_nil]
      intro c hc
      simp only [decide_eq_true_eq, not_and]
      intro hname hsb hl _
      rcases List.mem_append.mp hc with hcsp | hctail
      · exact distinctLocators_forall hloc hr (List.mem_append_left _ hcsp)
          (fun he => hname (he ▸ rfl)) ⟨hsb, hl⟩
      · rcases List.mem_cons.mp hctail with hce | hcss
        · subst hce
          exact distinctLocators_forall hloc hr
            (List.mem_append_right _ (List.mem_cons_self _ _)) hrold ⟨hsb, hl⟩
        · exact distinctLocators_forall hloc hr
            (List.mem_append_right _ (List.mem_cons_of_mem _ hcss))
            (fun he => hname (he ▸ rfl)) ⟨hsb, hl⟩
    have hold : (sp ++ { old with name := newName } :: ss).filter (fun c =>
        old.name ≠ c.name ∧ old.start_bit = c.start_bit ∧ old.length = c.length ∧
        old.byte_order = c.byte_order) = [{ old with name := newName }] := by
      rw [List.filter_append, List.filter_cons]
      have h1 : sp.filter (fun c =>
          old.name ≠ c.name ∧ old.start_bit = c.start_bit ∧ old.length = c.length ∧
          old.byte_order = c.byte_order) = [] := by
        rw [List.filter_eq_nil]
        intro c hc
        simp only [decide_eq_true_eq, not_and]
        intro hname hsb hl _
        exact distinctLocators_forall hloc
          (List.mem_append_right _ (List.mem_cons_self _ _))
          (List.mem_append_left _ hc) (fun he => hname (he ▸ rfl)) ⟨hsb, hl⟩
      have h2 : ss.filter (fun c =>
          old.name ≠ c.name ∧ old.start_bit = c.start_bit ∧ old.length = c.length ∧
          old.byte_order = c.byte_order) = [] := by
        rw [List.filter_eq_nil]
        intro c hc
        simp only [decide_eq_true_eq, not_and]
        intro hname hsb hl _
        have holdne : old ≠ c := by
          intro he
          have : old.name ∈ (sp ++ ss).map (·.name) := by
            rw [List.map_append]
            exact List.mem_append_right _ (he ▸ List.mem_map_of_mem _ hc)
          exact holdnot this
        exact distinctLocators_forall hloc
          (List.mem_append_right _ (List.mem_cons_self _ _))
          (List.mem_append_right _ (List.mem_cons_of_mem _ hc)) holdne ⟨hsb, hl⟩
      rw [h1, h2, if_pos (by simp [holdnew])]
      rfl
    rw [List.flatMap_append, List.flatMap_cons]
    have hsp : ∀ r ∈ sp, r ≠ old := by
      intro r hr he
      have : old.name ∈ (sp ++ ss).map (·.name) := by
        rw [List.map_append]
        exact List.mem_append_left _ (he ▸ List.mem_map_of_mem _ hr)
      exact holdnot this
    have hss : ∀ r ∈ ss, r ≠ old := by
      intro r hr he
      have : old.name ∈ (sp ++ ss).map (·.name) := by
        rw [List.map_append]
        exact List.mem_append_right _ (he ▸ List.mem_map_of_mem _ hr)
      exact holdnot this
    rw [flatMap_nil_of _ sp (fun r hr => by
      rw [hfilter r (List.mem_append_left _ hr) (hsp r hr)]
      rfl)]
    rw [flatMap_nil_of _ ss (fun r hr => by
      rw [hfilter r (List.mem_append_right _ (List.mem_cons_of_mem _ hr)) (hss r hr)]
      rfl)]
    rw [hold]
    rfl
  rw [hadd, hremove, hcommon, hupdates, hrenames]
  rw [hsend]
  rfl

theorem generate_patch_rename
    (raw cleaned : DBCModel) (pre post : List (Nat × DBCMessage)) (i : Nat)
    (rm : DBCMessage) (sp ss : List DBCSignal) (old : DBCSignal) (newName : String)
    (hraw : raw.messages = pre ++ (i, rm) :: post)
    (hclean : cleaned.messages = pre ++
      (i, { rm with signals := sp ++ { old with name := newName } :: ss }) :: post)
    (hkeys : (raw.messages.map (·.1)).Nodup)
    (hmid : rm.message_id = i)
    (hsig : rm.signals = sp ++ old :: ss)
    (hnd : ((sp ++ old :: ss).map (·.name)).Nodup)
    (hnew : newName ∉ (sp ++ old :: ss).map (·.name))
    (hlocs : ∀ p ∈ raw.messages, distinctLocators p.2.signals) :
    (generate_patch raw cleaned).rules =
      [addSignalRule (natToHex i) newName, removeSignalRule (natToHex i) old.name,
       renameRule (natToHex i) old newName] := by
  have hK : cleaned.messages.map (·.1) = raw.messages.map (·.1) := by
    rw [hraw, hclean]
    simp
  have hkeysm : i ∉ pre.map (·.1) ++ post.map (·.1) ∧
      (pre.map (·.1) ++ post.map (·.1)).Nodup := by
    have := hkeys
    rw [hraw, List.map_append, List.map_cons] at this
    exact List.nodup_cons.mp (List.nodup_middle.mp this)
  have hprekeys : i ∉ pre.map (·.1) := fun hc => hkeysm.1 (List.mem_append_left _ hc)
  have hprekeys' : i ∉ pre.map Prod.fst := hprekeys
  have hgetraw : assocGet raw.messages i = some rm := by
    rw [hraw]
    exact assocGet_mid_self pre post i rm hprekeys'
  have hgetclean : assocGet cleaned.messages i =
      some { rm with signals := sp ++ { old with name := newName } :: ss } := by
    rw [hclean]
    exact assocGet_mid_self pre post i _ hprekeys'
  rw [generate_rules_decomp]
  rw [hK, filter_not_contains_self (raw.messages.map (·.1))]
  have hfull : (raw.messages.map (·.1)).filter
      (fun j => (raw.messages.map (·.1)).contains j) = raw.messages.map (·.1) := by
    rw [List.filter_eq_self]
    intro j hj
    simp [hj]
  rw [hfull]
  have hmemS : i ∈ sortedSet (raw.messages.map (·.1)) := by
    rw [mem_sortedSet, hraw, List.map_append, List.map_cons]
    exact List.mem_append_right _ (List.mem_cons_self _ _)
  have hgroups : ∀ j ∈ sortedSet (raw.messages.map (·.1)), j ≠ i →
      (match assocGet raw.messages j, assocGet cleaned.messages j with
        | some rmj, some cmj => compare_message rmj cmj
        | _, _ => []) = [] := by
    intro j _ hji
    have hsame : assocGet cleaned.messages j = assocGet raw.messages j := by
      rw [hraw, hclean]
      exact (assocGet_mid_ne pre post i j rm _ hji).symm
    rw [hsame]
    cases hg : assocGet raw.messages j with
    | none => rfl
    | some m =>
      have hm : (j, m) ∈ raw.messages := assocGet_mem _ _ _ hg
      exact compare_message_self m
        (noCrossNameTriple_of_distinctLocators m (hlocs (j, m) hm))
  rw [flatMap_single _ _ i (sortedSet_nodup _) hmemS hgroups]
  rw [hgetraw, hgetclean]
  have hhex : rm.hex_id = natToHex i := by
    unfold DBCMessage.hex_id
    rw [hmid]
  have := compare_message_rename rm sp ss old newName hsig hnd hnew
    (by rw [← hsig]; exact hlocs (i, rm) (by rw [hraw]; simp))
  rw [hhex] at this
  simpa using this

theorem signalMatches_old (old : DBCSignal) :
    signalMatches ⟨old.start_bit, old.length⟩ old = true := by
  simp [signalMatches]

theorem signalMatches_false_of (old x : DBCSignal)
    (h : ¬ (x.start_bit = old.start_bit ∧ x.length = old.length)) :
    signalMatches ⟨old.start_bit, old.length⟩ x = false := by
  unfold signalMatches
  by_cases h1 : x.start_bit = old.start_bit
  · have h2 : ¬ x.length = old.length := fun h2 => h ⟨h1, h2⟩
    simp [h1, h2]
  · simp [h1]

theorem dispatch_rename (ref_db : ReferenceDB) (model : DBCModel) (rule : PatchRule)
    (h : rule.op = "rename_signal") :
    dispatch ref_db model rule = some (handle_rename_signal model rule) := by
  simp [dispatch, h]

theorem apply_rename_rule
    (ref_db : ReferenceDB) (raw : DBCModel) (pre post : List (Nat × DBCMessage)) (i : Nat)
    (rm : DBCMessage) (sp ss : List DBCSignal) (old : DBCSignal) (newName : String) (v : Nat)
    (hraw : raw.messages = pre ++ (i, rm) :: post)
    (hpre : i ∉ pre.map (·.1)) (hpost : i ∉ post.map (·.1))
    (hsig : rm.signals = sp ++ old :: ss)
    (hnd : ((sp ++ old :: ss).map (·.name)).Nodup)
    (hloc : distinctLocators (sp ++ old :: ss))
    (hne : newName ≠ "") :
    apply_patch ref_db raw ⟨v, [renameRule (natToHex i) old newName]⟩ =
      { new_model := { raw with messages := pre ++
          (i, { rm with signals := sp ++ { old with name := newName } :: ss }) :: post },
        applied := [renameRule (natToHex i) old newName],
        skipped := [], conflicts := [] } := by
  have hget : raw.getMsg (hexToNat (natToHex i)) = some rm := by
    unfold DBCModel.getMsg
    rw [hexToNat_natToHex, hraw]
    exact assocGet_mid_self pre post i rm hpre
  have hspfalse : ∀ x ∈ sp, signalMatches ⟨old.start_bit, old.length⟩ x = false := by
    intro x hx
    refine signalMatches_false_of old x ?_
    have hxold : x ≠ old := by
      intro he
      have hmem := List.mem_map_of_mem (fun s : DBCSignal => s.name) hx
      rw [he] at hmem
      have := hnd
      rw [List.map_append, List.map_cons] at this
      have hmiddle := List.nodup_cons.mp (List.nodup_middle.mp this)
      exact hmiddle.1 (List.mem_append_left _ hmem)
    exact distinctLocators_forall hloc (List.mem_append_left _ hx)
      (List.mem_append_right _ (List.mem_cons_self _ _)) hxold
  have hfind : findMatchIdx (signalMatches ⟨old.start_bit, old.length⟩) rm.signals =
      some sp.length := by
    rw [hsig]
    exact findMatchIdx_append _ sp old ss hspfalse (signalMatches_old old)
  have hhandle : handle_rename_signal raw (renameRule (natToHex i) old newName) =
      (.applied, { raw with messages := pre ++
        (i, { rm with signals := sp ++ { old with name := newName } :: ss }) :: post }) := by
    simp only [handle_rename_signal, renameRule, hget, hfind, hne, if_false, ite_false]
    rw [hsig, get?_append_length, set_append_length]
    simp only [Option.getD_some]
    unfold DBCModel.setMsg
    rw [hraw, hexToNat_natToHex, assocSet_mid pre post i rm _ hpre hpost]
  have hdisp : dispatch ref_db raw (renameRule (natToHex i) old newName) =
      some (handle_rename_signal raw (renameRule (natToHex i) old newName)) :=
    dispatch_rename ref_db raw _ rfl
  show PatchResult.mk _ _ _ _ = _
  simp only [apply_patch, List.foldl_cons, List.foldl_nil, apply_step, hdisp, hhandle,
    update_database_from_model, List.nil_append]

/-- C4 (amended) — renaming one signal while keeping its
`(start_bit, length, byte_order)` triple fixed yields exactly THREE
rules: an `AddSignalIfMissing` for the new name, a `RemoveSignal` for
the old name, and exactly one `RenameSignal` carrying the bit locator
and the new name; applying the `RenameSignal` rule alone to the
original model renames exactly that signal and alters no other field
(provided bit locators are pairwise distinct within each message and
the new name is non-empty). -/
theorem rename_emits_three_rules
    (ref_db : ReferenceDB) (raw cleaned : DBCModel) (pre post : List (Nat × DBCMessage))
    (i : Nat) (rm : DBCMessage) (sp ss : List DBCSignal) (old : DBCSignal)
    (newName : String) (v : Nat)
    (hraw : raw.messages = pre ++ (i, rm) :: post)
    (hclean : cleaned.messages = pre ++
      (i, { rm with signals := sp ++ { old with name := newName } :: ss }) :: post)
    (hkeys : (raw.messages.map (·.1)).Nodup)
    (hmid : rm.message_id = i)
    (hsig : rm.signals = sp ++ old :: ss)
    (hnd : ((sp ++ old :: ss).map (·.name)).Nodup)
    (hnew : newName ∉ (sp ++ old :: ss).map (·.name))
    (hne : newName ≠ "")
    (hlocs : ∀ p ∈ raw.messages, distinctLocators p.2.signals) :
    (generate_patch raw cleaned).rules =
      [addSignalRule (natToHex i) newName, removeSignalRule (natToHex i) old.name,
       renameRule (natToHex i) old newName] ∧
    (generate_patch raw cleaned).rules.filter (fun r => r.op = "rename_signal") =
      [renameRule (natToHex i) old newName] ∧
    apply_patch ref_db raw ⟨v, [renameRule (natToHex i) old newName]⟩ =
      { new_model := { raw with messages := cleaned.messages },
        applied := [renameRule (natToHex i) old newName],
        skipped := [], conflicts := [] } := by
  have hkeysm : i ∉ pre.map (·.1) ++ post.map (·.1) := by
    have := hkeys
    rw [hraw, List.map_append, List.map_cons] at this
    exact (List.nodup_cons.mp (List.nodup_middle.mp this)).1
  have hpre : i ∉ pre.map (·.1) := fun hc => hkeysm (List.mem_append_left _ hc)
  have hpost : i ∉ post.map (·.1) := fun hc => hkeysm (List.mem_append_right _ hc)
  have hgen := generate_patch_rename raw cleaned pre post i rm sp ss old newName
    hraw hclean hkeys hmid hsig hnd hnew hlocs
  have hloc : distinctLocators (sp ++ old :: ss) := by
    rw [← hsig]
    exact hlocs (i, rm) (by rw [hraw]; simp)
  have happly := apply_rename_rule ref_db raw pre post i rm sp ss old newName v
    hraw hpre hpost hsig hnd hloc hne
  refine ⟨hgen, ?_, ?_⟩
  · rw [hgen]
    simp [addSignalRule, removeSignalRule, renameRule]
  · rw [happly, hclean]

def c4old : DBCSignal := wSig

def c4rawMsg : DBCMessage :=
  { message_id := 1, name := "M", length := 8, signals := [c4old] }

def c4cleanMsg : DBCMessage :=
  { message_id := 1, name := "M", length := 8, signals := [{ c4old with name := "A2" }] }

def c4raw : DBCModel := { messages := [(1, c4rawMsg)] }

def c4clean : DBCModel := { messages := [(1, c4cleanMsg)] }

/-- C4 counterexample — a pure rename produces THREE rules (an
`AddSignalIfMissing`, a `RemoveSignal` and a `RenameSignal`), not
"exactly one rule" as claimed. -/
theorem rename_single_rule_counterexample :
    (generate_patch c4raw c4clean).rules.length = 3 ∧
    (generate_patch c4raw c4clean).rules =
      [addSignalRule "0x1" "A2", removeSignalRule "0x1" "S",
       renameRule "0x1" c4old "A2"] := by
  constructor
  · decide
  · decide

/-- Witness for C4's amended theorem at the concrete rename scenario. -/
theorem rename_emits_three_rules_witness :
    (generate_patch c4raw c4clean).rules =
      [addSignalRule (natToHex 1) "A2", removeSignalRule (natToHex 1) c4old.name,
       renameRule (natToHex 1) c4old "A2"] ∧
    (generate_patch c4raw c4clean).rules.filter (fun r => r.op = "rename_signal") =
      [renameRule (natToHex 1) c4old "A2"] ∧
    apply_patch {} c4raw ⟨1, [renameRule (natToHex 1) c4old "A2"]⟩ =
      { new_model := { c4raw with messages := c4clean.messages },
        applied := [renameRule (natToHex 1) c4old "A2"],
        skipped := [], conflicts := [] } :=
  rename_emits_three_rules {} c4raw c4clean [] [] 1 c4rawMsg
    [] [] c4old "A2" 1 rfl rfl (by decide) rfl rfl (by decide) (by decide) (by decide)
    (by decide)

/-! ## Reference catalog lemmas (C9) -/

/-- The sequence of message-map assignments performed by
`update_from_dbc`, in execution order. -/
def msgInserts (model : DBCModel) : List (String × DBCMessage) :=
  model.messages.flatMap (fun p =>
    [(message_key p.2.message_id p.2.name, canonicalize_message p.2),
     (p.2.name, canonicalize_message p.2)])

/-- The sequence of signal-map assignments performed by
`update_from_dbc`, in execution order. -/
def sigInserts (model : DBCModel) : List (String × DBCSignal) :=
  model.messages.flatMap (fun p => p.2.signals.map (fun s => (s.name, s)))

theorem sig_fold_as_inserts (signals : List DBCSignal) :
    ∀ (init : List (String × DBCSignal)),
      signals.foldl (fun acc sig => assocSet acc sig.name sig) init =
        (signals.map (fun s => (s.name, s))).foldl (fun acc p => assocSet acc p.1 p.2) init := by
  induction signals with
  | nil => intro init; rfl
  | cons s ss ih => intro init; simp only [List.foldl_cons, List.map_cons, ih]

theorem update_from_dbc_components (db : ReferenceDB) (model : DBCModel) :
    (db.update_from_dbc model).messages =
      (msgInserts model).foldl (fun acc p => assocSet acc p.1 p.2) db.messages ∧
    (db.update_from_dbc model).signals =
      (sigInserts model).foldl (fun acc p => assocSet acc p.1 p.2) db.signals := by
  suffices h : ∀ (entries : List (Nat × DBCMessage)) (db : ReferenceDB),
      (entries.foldl (fun db p =>
        let msg := p.2
        let canonical := canonicalize_message msg
        let msgs := assocSet (assocSet db.messages (message_key msg.message_id msg.name) canonical)
          msg.name canonical
        let sigs := msg.signals.foldl (fun acc sig => assocSet acc sig.name sig) db.signals
        { db with messages := msgs, signals := sigs }) db).messages =
        (entries.flatMap (fun p =>
          [(message_key p.2.message_id p.2.name, canonicalize_message p.2),
           (p.2.name, canonicalize_message p.2)])).foldl
            (fun acc p => assocSet acc p.1 p.2) db.messages ∧
      (entries.foldl (fun db p =>
        let msg := p.2
        let canonical := canonicalize_message msg
        let msgs := assocSet (assocSet db.messages (message_key msg.message_id msg.name) canonical)
          msg.name canonical
        let sigs := msg.signals.foldl (fun acc sig => assocSet acc sig.name sig) db.signals
        { db with messages := msgs, signals := sigs }) db).signals =
        (entries.flatMap (fun p => p.2.signals.map (fun s => (s.name, s)))).foldl
          (fun acc p => assocSet acc p.1 p.2) db.signals by
    exact h model.messages db
  intro entries
  induction entries with
  | nil => intro db; exact ⟨rfl, rfl⟩
  | cons p ps ih =>
    intro db
    constructor
    · rw [List.foldl_cons]
      rw [(ih _).1]
      simp only [List.flatMap_cons, List.foldl_append, List.foldl_cons, List.foldl_nil]
    · rw [List.foldl_cons]
      rw [(ih _).2]
      simp only [List.flatMap_cons, List.foldl_append]
      rw [sig_fold_as_inserts]

/-- C9 — importing a trusted model stores every message under both its
composite "frameId:name" key and its bare name and every signal under
its name, each assignment overwriting unconditionally (so a key's
binding is the LAST insertion with that key, falling back to the prior
catalog state), and `suggest_message` tries the composite key first
and falls back to the bare name. -/
theorem ref_catalog_import_last_wins (db : ReferenceDB) (model : DBCModel) :
    (∀ k, assocGet (db.update_from_dbc model).messages k =
      (((msgInserts model).reverse.find? (fun p => p.1 = k)).map (·.2)).or
        (assocGet db.messages k)) ∧
    (∀ k, assocGet (db.update_from_dbc model).signals k =
      (((sigInserts model).reverse.find? (fun p => p.1 = k)).map (·.2)).or
        (assocGet db.signals k)) ∧
    (∀ p ∈ model.messages,
      (assocGet (db.update_from_dbc model).messages
        (message_key p.2.message_id p.2.name)).isSome = true ∧
      (assocGet (db.update_from_dbc model).messages p.2.name).isSome = true) ∧
    (∀ sig_name,
      (db.update_from_dbc model).suggest_for_signal sig_name =
        assocGet (db.update_from_dbc model).signals sig_name) ∧
    (∀ frame_id name,
      (db.update_from_dbc model).suggest_message frame_id name =
        (assocGet (db.update_from_dbc model).messages (message_key frame_id name)).or
          (assocGet (db.update_from_dbc model).messages name)) := by
  obtain ⟨hm, hs⟩ := update_from_dbc_components db model
  refine ⟨?_, ?_, ?_, fun _ => rfl, fun _ _ => rfl⟩
  · intro k
    rw [hm, assocGet_foldl_assocSet]
  · intro k
    rw [hs, assocGet_foldl_assocSet]
  · intro p hp
    have hins : ∀ k, (k, canonicalize_message p.2) ∈ msgInserts model →
        (assocGet (db.update_from_dbc model).messages k).isSome = true := by
      intro k hk
      rw [hm, assocGet_foldl_assocSet]
      have : ∃ x ∈ (msgInserts model).reverse, (fun q => decide (q.1 = k)) x = true :=
        ⟨(k, canonicalize_message p.2), List.mem_reverse.mpr hk, by simp⟩
      rcases List.find?_isSome.mpr this with hx
      cases hfind : (msgInserts model).reverse.find? (fun q => q.1 = k) with
      | none => rw [hfind] at hx; simp at hx
      | some q => simp [hfind]
    constructor
    · refine hins _ ?_
      unfold msgInserts
      refine List.mem_flatMap.mpr ⟨p, hp, ?_⟩
      simp
    · refine hins _ ?_
      unfold msgInserts
      refine List.mem_flatMap.mpr ⟨p, hp, ?_⟩
      simp

/-- Witness for C9 at a concrete catalog and model. -/
theorem ref_catalog_import_last_wins_witness :
    (assocGet (ReferenceDB.update_from_dbc {}
      { messages := [(1, { message_id := 1, name := "M1", length := 8 })] }).messages
        (message_key 1 "M1")).isSome = true := by
  have h := (ref_catalog_import_last_wins {}
    { messages := [(1, { message_id := 1, name := "M1", length := 8 })] }).2.2.1
    (1, { message_id := 1, name := "M1", length := 8 }) (by decide)
  exact h.1

/-- Witness for C8 at a concrete unsupported op. -/
theorem unsupported_op_skipped_batch_continues_witness :
    ({ op := "frobnicate", message_id := "0x1" } : PatchRule).op ∉ knownOps ∧
    ∃ s₁ s₂,
      (apply_patch {} { messages := [] } ⟨1, []⟩).skipped = s₁ ∧
      (apply_patch {} { messages := [] } ⟨1, [] ++ []⟩).skipped = s₁ ++ s₂ ∧
      apply_patch {} { messages := [] }
          ⟨1, [] ++ ({ op := "frobnicate", message_id := "0x1" } : PatchRule) :: []⟩ =
        { new_model := (apply_patch {} { messages := [] } ⟨1, [] ++ []⟩).new_model,
          applied := (apply_patch {} { messages := [] } ⟨1, [] ++ []⟩).applied,
          conflicts := (apply_patch {} { messages := [] } ⟨1, [] ++ []⟩).conflicts,
          skipped := s₁ ++ ({ op := "frobnicate", message_id := "0x1" }, "unsupported") :: s₂ } :=
  ⟨by decide,
   unsupported_op_skipped_batch_continues {} { messages := [] } 1 [] []
     { op := "frobnicate", message_id := "0x1" } (by decide)⟩

/-! ## Round-trip lemmas (C1) -/

theorem optRatVal_inj {x y : Option Rat} (h : optRatVal x = optRatVal y) : x = y := by
  cases x with
  | none =>
    cases y with
    | none => rfl
    | some b => simp [optRatVal] at h
  | some a =>
    cases y with
    | none => simp [optRatVal] at h
    | some b =>
      simp only [optRatVal, Value.vRat.injEq] at h
      rw [h]

theorem optStrVal_inj {x y : Option String} (h : optStrVal x = optStrVal y) : x = y := by
  cases x with
  | none =>
    cases y with
    | none => rfl
    | some b => simp [optStrVal] at h
  | some a =>
    cases y with
    | none => simp [optStrVal] at h
    | some b =>
      simp only [optStrVal, Value.vStr.injEq] at h
      rw [h]

/-- Two signals agreeing on every `fieldList` attribute and on the two
multiplex attributes (which `fieldList` omits) are equal. -/
theorem getField_ext (a b : DBCSignal)
    (h : ∀ f ∈ fieldList, a.getField f = b.getField f)
    (hm : a.multiplex = b.multiplex) (hmi : a.multiplexer_ids = b.multiplexer_ids) :
    a = b := by
  have hname : Value.vStr a.name = Value.vStr b.name := h "name" (by decide)
  have hsb : Value.vNat a.start_bit = Value.vNat b.start_bit := h "start_bit" (by decide)
  have hlen : Value.vNat a.length = Value.vNat b.length := h "length" (by decide)
  have hbo : Value.vStr a.byte_order = Value.vStr b.byte_order := h "byte_order" (by decide)
  have hsign : Value.vBool a.is_signed = Value.vBool b.is_signed := h "is_signed" (by decide)
  have hscale : Value.vRat a.scale = Value.vRat b.scale := h "scale" (by decide)
  have hoff : Value.vRat a.offset = Value.vRat b.offset := h "offset" (by decide)
  have hmin : optRatVal a.minimum = optRatVal b.minimum := h "minimum" (by decide)
  have hmax : optRatVal a.maximum = optRatVal b.maximum := h "maximum" (by decide)
  have hunit : optStrVal a.unit = optStrVal b.unit := h "unit" (by decide)
  have hcom : optStrVal a.comment = optStrVal b.comment := h "comment" (by decide)
  have htab : Value.vTable a.value_table = Value.vTable b.value_table :=
    h "value_table" (by decide)
  have hrecv : Value.vList a.receivers = Value.vList b.receivers := h "receivers" (by decide)
  have h8 := optRatVal_inj hmin
  have h9 := optRatVal_inj hmax
  have h10 := optStrVal_inj hunit
  have h11 := optStrVal_inj hcom
  obtain ⟨n₁, sb₁, l₁, bo₁, sg₁, sc₁, of₁, mn₁, mx₁, u₁, c₁, vt₁, mp₁, mi₁, rc₁⟩ := a
  obtain ⟨n₂, sb₂, l₂, bo₂, sg₂, sc₂, of₂, mn₂, mx₂, u₂, c₂, vt₂, mp₂, mi₂, rc₂⟩ := b
  injection hname with h1
  injection hsb with h2
  injection hlen with h3
  injection hbo with h4
  injection hsign with h5
  injection hscale with h6
  injection hoff with h7
  injection htab with h12
  injection hrecv with h13
  simp only at h8 h9 h10 h11 hm hmi
  subst h1 h2 h3 h4 h5 h6 h7 h8 h9 h10 h11 h12 h13 hm hmi
  rfl

theorem signalChanges_def (r c : DBCSignal) :
    signalChanges r c = fieldList.filterMap (fun f =>
      if r.getField f ≠ c.getField f
      then some (f, Change.mk (r.getField f) (c.getField f)) else none) := rfl

theorem signalChanges_map_fst (r c : DBCSignal) :
    (signalChanges r c).map Prod.fst =
      fieldList.filter (fun f => decide (r.getField f ≠ c.getField f)) := by
  rw [signalChanges_def]
  generalize fieldList = l
  induction l with
  | nil => rfl
  | cons a as ih =>
    rw [List.filterMap_cons, List.filter_cons]
    by_cases h : r.getField a ≠ c.getField a
    · rw [if_pos h, List.map_cons, ih, if_pos (by simpa using h)]
    · rw [if_neg h, ih, if_neg (by simpa using h)]

theorem signalChanges_fst_nodup (r c : DBCSignal) :
    ((signalChanges r c).map Prod.fst).Nodup := by
  rw [signalChanges_map_fst]
  exact fieldList_nodup.filter _

theorem signalChanges_mem (r c : DBCSignal) (fc : String × Change)
    (h : fc ∈ signalChanges r c) :
    fc.1 ∈ fieldList ∧ r.getField fc.1 ≠ c.getField fc.1 ∧
      fc.2 = Change.mk (r.getField fc.1) (c.getField fc.1) := by
  rw [signalChanges_def] at h
  rcases List.mem_filterMap.mp h with ⟨a, ha, hg⟩
  by_cases hcond : r.getField a ≠ c.getField a
  · rw [if_pos hcond] at hg
    rw [Option.some_inj] at hg
    rw [← hg]
    exact ⟨ha, hcond, rfl⟩
  · rw [if_neg hcond] at hg
    exact Option.noConfusion hg

theorem signalChanges_not_mem_eq (r c : DBCSignal) (f : String)
    (hf : f ∈ fieldList) (h : f ∉ (signalChanges r c).map Prod.fst) :
    r.getField f = c.getField f := by
  rw [signalChanges_map_fst] at h
  by_contra hne
  exact h (List.mem_filter.mpr ⟨hf, by simpa using hne⟩)

theorem signalChanges_nil_eq (r c : DBCSignal) (h : signalChanges r c = [])
    (f : String) (hf : f ∈ fieldList) : r.getField f = c.getField f := by
  refine signalChanges_not_mem_eq r c f hf ?_
  rw [h]
  simp

theorem applyChanges_multiplex : ∀ (changes : List (String × Change)) (sig : DBCSignal),
    (∀ fc ∈ changes, fc.1 ∈ fieldList) →
    (applyChanges sig changes).1.multiplex = sig.multiplex ∧
    (applyChanges sig changes).1.multiplexer_ids = sig.multiplexer_ids := by
  intro changes
  induction changes with
  | nil => intro sig _; exact ⟨rfl, rfl⟩
  | cons fc₀ rest ih =>
    intro sig hfl
    obtain ⟨f, c⟩ := fc₀
    rw [applyChanges_cons]
    by_cases hcond : c.fromVal ≠ Value.vNone ∧ sig.getField f ≠ c.fromVal
    · rw [if_pos hcond]
      exact ⟨rfl, rfl⟩
    · rw [if_neg hcond]
      have hkeep := setField_multiplex sig f c.toVal (hfl (f, c) (List.mem_cons_self _ _))
      obtain ⟨ih1, ih2⟩ := ih (sig.setField f c.toVal)
        (fun fc hfc => hfl fc (List.mem_cons_of_mem _ hfc))
      exact ⟨ih1.trans hkeep.1, ih2.trans hkeep.2⟩

/-- Applying the change map `_compare_signal` collects for the pair
`(r, c)` back onto `r` never conflicts and lands exactly on `c`,
provided the two multiplex attributes (which the diff does not cover)
already agree. -/
theorem applyChanges_signalChanges (r c : DBCSignal)
    (hm : r.multiplex = c.multiplex) (hmi : r.multiplexer_ids = c.multiplexer_ids) :
    applyChanges r (signalChanges r c) = (c, none) := by
  have hnd := signalChanges_fst_nodup r c
  have hgood : ∀ fc ∈ signalChanges r c,
      fc.2.fromVal = Value.vNone ∨ r.getField fc.1 = fc.2.fromVal := by
    intro fc hfc
    right
    rw [(signalChanges_mem r c fc hfc).2.2]
  obtain ⟨hconf, hset, hframe⟩ := applyChanges_good (signalChanges r c) r hnd hgood
  have hfl : ∀ fc ∈ signalChanges r c, fc.1 ∈ fieldList :=
    fun fc hfc => (signalChanges_mem r c fc hfc).1
  obtain ⟨hmp, hmpi⟩ := applyChanges_multiplex (signalChanges r c) r hfl
  have hfields : ∀ f ∈ fieldList,
      (applyChanges r (signalChanges r c)).1.getField f = c.getField f := by
    intro f hf
    by_cases hmem : f ∈ (signalChanges r c).map Prod.fst
    · rcases List.mem_map.mp hmem with ⟨fc, hfc, hfst⟩
      obtain ⟨-, -, hch⟩ := signalChanges_mem r c fc hfc
      subst hfst
      rw [hset fc hfc (by rw [hch]; exact wellTyped_getField_of_mem c _ hf), hch]
    · rw [hframe f hmem]
      exact signalChanges_not_mem_eq r c f hf hmem
  have h1 : (applyChanges r (signalChanges r c)).1 = c :=
    getField_ext _ c hfields (hmp.trans hm) (hmpi.trans hmi)
  calc applyChanges r (signalChanges r c)
      = ((applyChanges r (signalChanges r c)).1,
         (applyChanges r (signalChanges r c)).2) := rfl
    _ = (c, none) := by rw [h1, hconf]

/-- The attributes C1 pins between paired raw/cleaned signals: the
name (the claim's "same signal names"), the `(start_bit, length)` bit
locator (the amended stability condition) and the two multiplex
attributes (which sit outside the diffed field list). -/
def sigStable (r c : DBCSignal) : Prop :=
  r.name = c.name ∧ r.start_bit = c.start_bit ∧ r.length = c.length ∧
  r.multiplex = c.multiplex ∧ r.multiplexer_ids = c.multiplexer_ids

/-- The exact `update_signal` rules `_compare_message` emits for two
positionally paired signal lists (proof-side normal form). -/
def updateRulesFor (mid : String) : List DBCSignal → List DBCSignal → List PatchRule
  | r :: rs, c :: cs =>
      (if signalChanges r c = [] then []
       else [updateSignalRule mid r (signalChanges r c)]) ++ updateRulesFor mid rs cs
  | _, _ => []

theorem dispatch_update (ref_db : ReferenceDB) (model : DBCModel) (rule : PatchRule)
    (h : rule.op = "update_signal") :
    dispatch ref_db model rule = some (handle_update_signal model rule) := by
  simp [dispatch, h]

theorem distinctLocators_head {done rs : List DBCSignal} {r : DBCSignal}
    (h : distinctLocators (done ++ r :: rs)) :
    ∀ x ∈ done, signalMatches ⟨r.start_bit, r.length⟩ x = false := by
  unfold distinctLocators at h
  rw [List.pairwise_append] at h
  intro x hx
  exact signalMatches_false_of r x (h.2.2 x hx r (List.mem_cons_self _ _))

theorem distinctLocators_replace (done rs : List DBCSignal) (r c : DBCSignal)
    (hsb : r.start_bit = c.start_bit) (hl : r.length = c.length)
    (h : distinctLocators (done ++ r :: rs)) : distinctLocators (done ++ c :: rs) := by
  unfold distinctLocators at h ⊢
  rw [List.pairwise_append] at h ⊢
  obtain ⟨h1, h2, h3⟩ := h
  rw [List.pairwise_cons] at h2
  obtain ⟨h21, h22⟩ := h2
  refine ⟨h1, ?_, ?_⟩
  · rw [List.pairwise_cons]
    refine ⟨?_, h22⟩
    intro y hy hc
    exact h21 y hy ⟨hsb.trans hc.1, hl.trans hc.2⟩
  · intro x hx y hy
    rcases List.mem_cons.mp hy with he | hmem
    · subst he
      intro hc
      exact h3 x hx r (List.mem_cons_self _ _) ⟨hc.1.trans hsb.symm, hc.2.trans hl.symm⟩
    · exact h3 x hx y (List.mem_cons_of_mem _ hmem)

/-- Applying the generated per-pair update rules to the target message
rewrites its signal list, pair by pair, into the cleaned one; no other
message and no other part of the model is touched. -/
theorem applyRules_update_group (ref_db : ReferenceDB) :
    ∀ {rsub csub : List DBCSignal}, List.Forall₂ sigStable rsub csub →
    ∀ (M : DBCModel) (pre post : List (Nat × DBCMessage)) (i : Nat) (m : DBCMessage)
      (done : List DBCSignal),
      M.messages = pre ++ (i, m) :: post →
      m.signals = done ++ rsub →
      i ∉ pre.map Prod.fst → i ∉ post.map Prod.fst →
      distinctLocators (done ++ rsub) →
      applyRules ref_db M (updateRulesFor (natToHex i) rsub csub) =
        { M with messages := pre ++ (i, { m with signals := done ++ csub }) :: post } := by
  intro rsub csub hrel
  induction hrel with
  | nil =>
    intro M pre post i m done hM hm hpre hpost hloc
    rw [show updateRulesFor (natToHex i) [] [] = [] from rfl, applyRules_nil]
    rw [List.append_nil]
    rw [List.append_nil] at hm
    have hmm : ({ m with signals := done } : DBCMessage) = m := by rw [← hm]
    rw [hmm, ← hM]
  | @cons r c rs cs hrc hrel ih =>
    intro M pre post i m done hM hm hpre hpost hloc
    obtain ⟨hname, hsb, hlen, hmp, hmpi⟩ := hrc
    have hrules : updateRulesFor (natToHex i) (r :: rs) (c :: cs) =
        (if signalChanges r c = [] then []
         else [updateSignalRule (natToHex i) r (signalChanges r c)]) ++
        updateRulesFor (natToHex i) rs cs := rfl
    by_cases h0 : signalChanges r c = []
    · have hrc_eq : r = c := getField_ext r c
        (fun f hf => signalChanges_nil_eq r c h0 f hf) hmp hmpi
      rw [hrules, if_pos h0, List.nil_append]
      have hm' : m.signals = (done ++ [r]) ++ rs := by
        rw [hm, List.append_assoc, List.singleton_append]
      have hloc' : distinctLocators ((done ++ [r]) ++ rs) := by
        rw [List.append_assoc, List.singleton_append]
        exact hloc
      have hstep := ih M pre post i m (done ++ [r]) hM hm' hpre hpost hloc'
      rw [hstep, List.append_assoc, List.singleton_append, hrc_eq]
    · have hget : M.getMsg (hexToNat (natToHex i)) = some m := by
        unfold DBCModel.getMsg
        rw [hexToNat_natToHex, hM]
        exact assocGet_mid_self pre post i m hpre
      have hfind : findMatchIdx (signalMatches ⟨r.start_bit, r.length⟩) m.signals =
          some done.length := by
        rw [hm]
        exact findMatchIdx_append _ done r rs (distinctLocators_head hloc) (signalMatches_old r)
      have hsig : m.signals.get? done.length = some r := by
        rw [hm]
        exact get?_append_length done r rs
      have happ : applyChanges r (signalChanges r c) = (c, none) :=
        applyChanges_signalChanges r c hmp hmpi
      have hhandle := handle_update_signal_applied_eq M
        (updateSignalRule (natToHex i) r (signalChanges r c)) m
        ⟨r.start_bit, r.length⟩ done.length r c hget rfl hfind hsig happ
      have hset : M.setMsg (hexToNat (natToHex i))
          { m with signals := m.signals.set done.length c } =
          { M with messages := pre ++ (i, { m with signals := done ++ c :: rs }) :: post } := by
        unfold DBCModel.setMsg
        rw [hexToNat_natToHex, hM, hm, set_append_length]
        rw [assocSet_mid pre post i m _ hpre hpost]
      have hdisp := dispatch_update ref_db M
        (updateSignalRule (natToHex i) r (signalChanges r c)) rfl
      rw [hrules, if_neg h0, List.singleton_append, applyRules_cons]
      simp only [hdisp, hhandle,
        show (updateSignalRule (natToHex i) r (signalChanges r c)).message_id =
          natToHex i from rfl, hset]
      have hm'' : ({ m with signals := done ++ c :: rs } : DBCMessage).signals =
          (done ++ [c]) ++ rs := by
        rw [List.append_assoc, List.singleton_append]
      have hloc'' : distinctLocators ((done ++ [c]) ++ rs) := by
        rw [List.append_assoc, List.singleton_append]
        exact distinctLocators_replace done rs r c hsb hlen hloc
      have hstep := ih
        { M with messages := pre ++ (i, { m with signals := done ++ c :: rs }) :: post }
        pre post i ({ m with signals := done ++ c :: rs }) (done ++ [c])
        rfl hm'' hpre hpost hloc''
      rw [hstep, List.append_assoc, List.singleton_append]

theorem forall₂_name_map {l₁ l₂ : List DBCSignal} (h : List.Forall₂ sigStable l₁ l₂) :
    l₁.map (·.name) = l₂.map (·.name) := by
  induction h with
  | nil => rfl
  | cons h₁ _ ih => rw [List.map_cons, List.map_cons, h₁.1, ih]

theorem forall₂_mem_right {α β : Type} {R : α → β → Prop} :
    ∀ {l₁ : List α} {l₂ : List β}, List.Forall₂ R l₁ l₂ → ∀ b ∈ l₂, ∃ a ∈ l₁, R a b := by
  intro l₁ l₂ h
  induction h with
  | nil => intro b hb; simp at hb
  | cons h₁ _ ih =>
    intro b hb
    rcases List.mem_cons.mp hb with he | hmem
    · subst he
      exact ⟨_, List.mem_cons_self _ _, h₁⟩
    · rcases ih b hmem with ⟨a, ha, hr⟩
      exact ⟨a, List.mem_cons_of_mem _ ha, hr⟩

theorem forall₂_imp_mem {α β : Type} {R S : α → β → Prop} :
    ∀ {l₁ : List α} {l₂ : List β}, List.Forall₂ R l₁ l₂ →
      (∀ a b, a ∈ l₁ → b ∈ l₂ → R a b → S a b) → List.Forall₂ S l₁ l₂ := by
  intro l₁ l₂ h
  induction h with
  | nil => intro _; exact List.Forall₂.nil
  | cons h₁ h₂ ih =>
    intro hs
    exact List.Forall₂.cons
      (hs _ _ (List.mem_cons_self _ _) (List.mem_cons_self _ _) h₁)
      (ih (fun a b ha hb hr =>
        hs a b (List.mem_cons_of_mem _ ha) (List.mem_cons_of_mem _ hb) hr))

theorem flatMap_lookup_eq (rm cm : DBCMessage) :
    ∀ {rsub csub : List DBCSignal},
      List.Forall₂ (fun r c => sigByName rm.signals r.name = some r ∧
        sigByName cm.signals r.name = some c) rsub csub →
      (rsub.map (·.name)).flatMap (fun n =>
        match sigByName rm.signals n, sigByName cm.signals n with
        | some rs, some cs => compare_signal rm rs cs
        | _, _ => []) =
      updateRulesFor rm.hex_id rsub csub := by
  intro rsub csub h
  induction h with
  | nil => rfl
  | @cons r c rs cs h₁ h₂ ih =>
    rw [List.map_cons, List.flatMap_cons]
    simp only [h₁.1, h₁.2]
    rw [ih]
    rfl

/-- Under C1's hypotheses `_compare_message` emits only `update_signal`
rules: one per positionally paired signal pair that differs. -/
theorem compare_message_update (rm cm : DBCMessage)
    (hnd : (rm.signals.map (·.name)).Nodup)
    (hloc : distinctLocators rm.signals)
    (hsend : rm.senders = cm.senders)
    (hrel : List.Forall₂ sigStable rm.signals cm.signals) :
    compare_message rm cm = updateRulesFor rm.hex_id rm.signals cm.signals := by
  have hmapeq : rm.signals.map (·.name) = cm.signals.map (·.name) :=
    forall₂_name_map hrel
  have hndc : (cm.signals.map (·.name)).Nodup := hmapeq ▸ hnd
  have hren : detect_renames rm.signals cm.signals = [] := by
    refine detect_renames_nil rm.signals cm.signals ?_
    intro r hr c hc hname htrip
    rcases forall₂_mem_right hrel c hc with ⟨r', hr', hrc⟩
    have hne : r ≠ r' := fun he => hname (by rw [he]; exact hrc.1)
    exact distinctLocators_forall hloc hr hr' hne
      ⟨htrip.1.trans hrc.2.1.symm, htrip.2.1.trans hrc.2.2.1.symm⟩
  have hlook : List.Forall₂ (fun r c => sigByName rm.signals r.name = some r ∧
      sigByName cm.signals r.name = some c) rm.signals cm.signals := by
    refine forall₂_imp_mem hrel ?_
    intro r c hr hc hrc
    refine ⟨sigByName_of_nodup_mem rm.signals r hnd hr, ?_⟩
    rw [hrc.1]
    exact sigByName_of_nodup_mem cm.signals c hndc hc
  simp only [compare_message]
  rw [sigNames_eq_map _ hnd, sigNames_eq_map _ hndc, ← hmapeq]
  rw [filter_not_contains_self]
  rw [if_neg (show ¬ rm.senders ≠ cm.senders by simp [hsend])]
  rw [hren]
  have hfself : (rm.signals.map (·.name)).filter
      (fun n => (rm.signals.map (·.name)).contains n) =
      rm.signals.map (·.name) := by
    rw [List.filter_eq_self]
    intro n hn
    simp [hn]
  rw [hfself]
  rw [flatMap_lookup_eq rm cm hlook]
  simp only [List.map_nil, List.nil_append, List.append_nil]

/-- The relation C1 pins between a raw message entry and its cleaned
counterpart: same key, well-formed id, same senders, duplicate-free
signal names, pairwise-distinct bit locators, and positionally
`sigStable`-paired signals. -/
def msgStable (p q : Nat × DBCMessage) : Prop :=
  p.1 = q.1 ∧ p.2.message_id = p.1 ∧ p.2.senders = q.2.senders ∧
  (p.2.signals.map (·.name)).Nodup ∧ distinctLocators p.2.signals ∧
  List.Forall₂ sigStable p.2.signals q.2.signals

theorem msgStable_keys :
    ∀ {l₁ l₂ : List (Nat × DBCMessage)}, List.Forall₂ msgStable l₁ l₂ →
      l₁.map Prod.fst = l₂.map Prod.fst := by
  intro l₁ l₂ h
  induction h with
  | nil => rfl
  | cons h₁ _ ih => rw [List.map_cons, List.map_cons, h₁.1, ih]

theorem assocGet_msgStable :
    ∀ {l₁ l₂ : List (Nat × DBCMessage)}, List.Forall₂ msgStable l₁ l₂ →
      ∀ (k : Nat) (v : DBCMessage), assocGet l₁ k = some v →
      ∃ w, assocGet l₂ k = some w ∧ v.message_id = k ∧ v.senders = w.senders ∧
        (v.signals.map (·.name)).Nodup ∧ distinctLocators v.signals ∧
        List.Forall₂ sigStable v.signals w.signals := by
  intro l₁ l₂ h
  induction h with
  | nil =>
    intro k v hv
    rw [assocGet_nil] at hv
    exact Option.noConfusion hv
  | @cons p q l₁' l₂' h₁ h₂ ih =>
    intro k v hv
    rw [assocGet_cons] at hv
    by_cases hk : p.1 = k
    · rw [if_pos hk] at hv
      rw [Option.some_inj] at hv
      subst hv
      refine ⟨q.2, ?_, ?_, h₁.2.2.1, h₁.2.2.2.1, h₁.2.2.2.2.1, h₁.2.2.2.2.2⟩
      · rw [assocGet_cons, if_pos (by rw [← h₁.1]; exact hk)]
      · rw [h₁.2.1]
        exact hk
    · rw [if_neg hk] at hv
      rcases ih k v hv with ⟨w, hw, hrest⟩
      refine ⟨w, ?_, hrest⟩
      rw [assocGet_cons, if_neg (by rw [← h₁.1]; exact hk)]
      exact hw

theorem assoc_split {α : Type} :
    ∀ (l : List (Nat × α)) (k : Nat) (v : α), (l.map Prod.fst).Nodup →
      assocGet l k = some v →
      ∃ pre post, l = pre ++ (k, v) :: post ∧
        k ∉ pre.map Prod.fst ∧ k ∉ post.map Prod.fst := by
  intro l
  induction l with
  | nil =>
    intro k v _ hv
    rw [assocGet_nil] at hv
    exact Option.noConfusion hv
  | cons p ps ih =>
    intro k v hnd hv
    obtain ⟨pk, pv⟩ := p
    rw [assocGet_cons] at hv
    rw [List.map_cons, List.nodup_cons] at hnd
    by_cases hk : pk = k
    · rw [if_pos hk] at hv
      rw [Option.some_inj] at hv
      subst hk
      subst hv
      exact ⟨[], ps, rfl, by simp, hnd.1⟩
    · rw [if_neg hk] at hv
      rcases ih k v hnd.2 hv with ⟨pre, post, hsplit, hpre, hpost⟩
      refine ⟨(pk, pv) :: pre, post, by rw [hsplit]; rfl, ?_, hpost⟩
      rw [List.map_cons]
      intro hc
      rcases List.mem_cons.mp hc with he | hmem
      · exact hk he.symm
      · exact hpre hmem

theorem assoc_ext {α : Type} :
    ∀ (l₁ l₂ : List (Nat × α)), l₁.map Prod.fst = l₂.map Prod.fst →
      (l₁.map Prod.fst).Nodup →
      (∀ k ∈ l₁.map Prod.fst, assocGet l₁ k = assocGet l₂ k) → l₁ = l₂ := by
  intro l₁
  induction l₁ with
  | nil =>
    intro l₂ hk _ _
    cases l₂ with
    | nil => rfl
    | cons q qs => exact List.noConfusion hk
  | cons p ps ih =>
    intro l₂ hk hnd hget
    cases l₂ with
    | nil => exact List.noConfusion hk
    | cons q qs =>
      rw [List.map_cons, List.map_cons] at hk
      injection hk with hk1 hk2
      rw [List.map_cons, List.nodup_cons] at hnd
      have hpq : p.2 = q.2 := by
        have hp := hget p.1 (by rw [List.map_cons]; exact List.mem_cons_self _ _)
        rw [assocGet_cons, assocGet_cons, if_pos rfl, if_pos hk1.symm] at hp
        exact Option.some_inj.mp hp
      have hps : ps = qs := by
        refine ih qs hk2 hnd.2 ?_
        intro k hkmem
        have hne : ¬ p.1 = k := fun he => hnd.1 (by rw [he]; exact hkmem)
        have hp := hget k (by rw [List.map_cons]; exact List.mem_cons_of_mem _ hkmem)
        rw [assocGet_cons, assocGet_cons, if_neg hne,
          if_neg (by rw [← hk1]; exact hne)] at hp
        exact hp
      rw [Prod.ext hk1 hpq, hps]

theorem zip_target_keys :
    ∀ {l₁ l₂ : List (Nat × DBCMessage)}, List.Forall₂ msgStable l₁ l₂ →
      (List.zipWith (fun p q => (p.1, { p.2 with signals := q.2.signals })) l₁ l₂).map
        Prod.fst = l₁.map Prod.fst := by
  intro l₁ l₂ h
  induction h with
  | nil => rfl
  | cons h₁ _ ih =>
    rw [List.zipWith_cons_cons, List.map_cons, List.map_cons, ih]

theorem assocGet_zip_target :
    ∀ {l₁ l₂ : List (Nat × DBCMessage)}, List.Forall₂ msgStable l₁ l₂ →
      ∀ (k : Nat) (v w : DBCMessage), assocGet l₁ k = some v → assocGet l₂ k = some w →
      assocGet (List.zipWith (fun p q => (p.1, { p.2 with signals := q.2.signals })) l₁ l₂)
          k = some { v with signals := w.signals } := by
  intro l₁ l₂ h
  induction h with
  | nil =>
    intro k v w hv _
    rw [assocGet_nil] at hv
    exact Option.noConfusion hv
  | @cons p q l₁' l₂' h₁ h₂ ih =>
    intro k v w hv hw
    rw [List.zipWith_cons_cons, assocGet_cons]
    rw [assocGet_cons] at hv hw
    by_cases hk : p.1 = k
    · rw [if_pos hk]
      rw [if_pos hk] at hv
      rw [if_pos (by rw [← h₁.1]; exact hk)] at hw
      rw [Option.some_inj] at hv hw
      rw [hv, hw]
    · rw [if_neg hk]
      rw [if_neg hk] at hv
      rw [if_neg (by rw [← h₁.1]; exact hk)] at hw
      exact ih k v w hv hw

theorem flatMap_congr_mem {α β : Type} {l : List α} {f g : α → List β}
    (h : ∀ a ∈ l, f a = g a) : l.flatMap f = l.flatMap g := by
  induction l with
  | nil => rfl
  | cons a as ih =>
    rw [List.flatMap_cons, List.flatMap_cons, h a (List.mem_cons_self _ _),
      ih (fun a ha => h a (List.mem_cons_of_mem _ ha))]

/-- The per-id rule group `generate_patch` produces for C1 models. -/
def groupRules (raw cleaned : DBCModel) (i : Nat) : List PatchRule :=
  match assocGet raw.messages i, assocGet cleaned.messages i with
  | some rm, some cm => updateRulesFor (natToHex i) rm.signals cm.signals
  | _, _ => []

/-- Under C1's hypotheses the generated patch consists exactly of the
per-id `update_signal` groups over the sorted, deduplicated shared
message ids. -/
theorem generate_patch_update (raw cleaned : DBCModel)
    (hkeys : (raw.messages.map Prod.fst).Nodup)
    (hrel : List.Forall₂ msgStable raw.messages cleaned.messages) :
    (generate_patch raw cleaned).rules =
      (sortedSet (raw.messages.map (·.1))).flatMap (groupRules raw cleaned) := by
  have hk : cleaned.messages.map (·.1) = raw.messages.map (·.1) :=
    (msgStable_keys hrel).symm
  simp only [generate_patch]
  rw [hk, filter_not_contains_self]
  have hfself : (raw.messages.map (·.1)).filter
      (fun i => (raw.messages.map (·.1)).contains i) = raw.messages.map (·.1) := by
    rw [List.filter_eq_self]
    intro n hn
    simp [hn]
  rw [hfself]
  simp only [show sortedSet ([] : List Nat) = [] from rfl, List.map_nil, List.nil_append]
  refine flatMap_congr_mem ?_
  intro i hi
  have himem : i ∈ raw.messages.map Prod.fst := (mem_sortedSet _ _).mp hi
  obtain ⟨rm, hrm⟩ := assocGet_isSome_of_mem_keys raw.messages i himem
  obtain ⟨cm, hcm, hmid, hsend, hnm, hloc, hsig⟩ := assocGet_msgStable hrel i rm hrm
  unfold groupRules
  simp only [hrm, hcm]
  rw [compare_message_update rm cm hnm hloc hsend hsig]
  rw [show rm.hex_id = natToHex rm.message_id from rfl, hmid]

/-- Running the per-id groups for a duplicate-free id set `S` rewrites
exactly the entries with keys in `S` to their cleaned signal lists and
leaves every other entry, the key order, the version and the node list
unchanged. -/
theorem applyRules_groups (ref_db : ReferenceDB) (raw cleaned : DBCModel)
    (hkeys : (raw.messages.map Prod.fst).Nodup)
    (hrel : List.Forall₂ msgStable raw.messages cleaned.messages) :
    ∀ (S : List Nat), S.Nodup → (∀ i ∈ S, i ∈ raw.messages.map Prod.fst) →
    ∀ (M : DBCModel), M.messages.map Prod.fst = raw.messages.map Prod.fst →
      (∀ k ∈ S, assocGet M.messages k = assocGet raw.messages k) →
      ((applyRules ref_db M (S.flatMap (groupRules raw cleaned))).messages.map Prod.fst =
          M.messages.map Prod.fst ∧
        (applyRules ref_db M (S.flatMap (groupRules raw cleaned))).version = M.version ∧
        (applyRules ref_db M (S.flatMap (groupRules raw cleaned))).nodes = M.nodes) ∧
      (∀ k, k ∉ S →
        assocGet (applyRules ref_db M (S.flatMap (groupRules raw cleaned))).messages k =
          assocGet M.messages k) ∧
      (∀ k ∈ S, ∀ (rm cm : DBCMessage), assocGet raw.messages k = some rm →
        assocGet cleaned.messages k = some cm →
        assocGet (applyRules ref_db M (S.flatMap (groupRules raw cleaned))).messages k =
          some { rm with signals := cm.signals }) := by
  intro S
  induction S with
  | nil =>
    intro _ _ M _ _
    rw [List.flatMap_nil, applyRules_nil]
    exact ⟨⟨rfl, rfl, rfl⟩, fun k _ => rfl, fun k hk => absurd hk (List.not_mem_nil k)⟩
  | cons i S' ih =>
    intro hnd hsub M hMkeys hMraw
    rw [List.nodup_cons] at hnd
    have hiraw : i ∈ raw.messages.map Prod.fst := hsub i (List.mem_cons_self _ _)
    obtain ⟨rm, hrm⟩ := assocGet_isSome_of_mem_keys raw.messages i hiraw
    obtain ⟨cm, hcm, hmid, hsend, hnm, hloc, hsig⟩ := assocGet_msgStable hrel i rm hrm
    have hMi : assocGet M.messages i = some rm := by
      rw [hMraw i (List.mem_cons_self _ _), hrm]
    have hMnd : (M.messages.map Prod.fst).Nodup := by
      rw [hMkeys]
      exact hkeys
    obtain ⟨pre, post, hMsplit, hpre, hpost⟩ := assoc_split M.messages i rm hMnd hMi
    have hgroup : groupRules raw cleaned i =
        updateRulesFor (natToHex i) rm.signals cm.signals := by
      unfold groupRules
      rw [hrm, hcm]
    have hstep : applyRules ref_db M (groupRules raw cleaned i) =
        { M with messages := pre ++ (i, { rm with signals := cm.signals }) :: post } := by
      rw [hgroup]
      exact applyRules_update_group ref_db hsig M pre post i rm []
        hMsplit rfl hpre hpost hloc
    rw [List.flatMap_cons, applyRules_append, hstep]
    have hM'keys : ({ M with messages :=
        pre ++ (i, { rm with signals := cm.signals }) :: post }
          : DBCModel).messages.map Prod.fst = raw.messages.map Prod.fst := by
      show (pre ++ (i, _) :: post).map Prod.fst = _
      rw [← hMkeys, hMsplit]
      rw [List.map_append, List.map_append, List.map_cons, List.map_cons]
    have hM'raw : ∀ k ∈ S', assocGet ({ M with messages :=
        pre ++ (i, { rm with signals := cm.signals }) :: post }
          : DBCModel).messages k = assocGet raw.messages k := by
      intro k hk
      have hki : k ≠ i := fun he => hnd.1 (by rw [← he]; exact hk)
      show assocGet (pre ++ (i, _) :: post) k = _
      rw [assocGet_mid_ne pre post i k _ rm hki, ← hMsplit]
      exact hMraw k (List.mem_cons_of_mem _ hk)
    obtain ⟨⟨hkeys', hver', hnodes'⟩, hout, hin⟩ := ih hnd.2
      (fun j hj => hsub j (List.mem_cons_of_mem _ hj))
      { M with messages := pre ++ (i, { rm with signals := cm.signals }) :: post }
      hM'keys hM'raw
    refine ⟨⟨?_, hver', hnodes'⟩, ?_, ?_⟩
    · rw [hkeys']
      show (pre ++ ((i, _) : Nat × DBCMessage) :: post).map Prod.fst =
        M.messages.map Prod.fst
      rw [hMsplit, List.map_append, List.map_append, List.map_cons, List.map_cons]
    · intro k hk
      have hki : k ≠ i := fun he => hk (by rw [he]; exact List.mem_cons_self _ _)
      have hkS : k ∉ S' := fun hc => hk (List.mem_cons_of_mem _ hc)
      rw [hout k hkS]
      show assocGet (pre ++ (i, _) :: post) k = assocGet M.messages k
      rw [assocGet_mid_ne pre post i k _ rm hki, ← hMsplit]
    · intro k hk rmk cmk hrmk hcmk
      rcases List.mem_cons.mp hk with he | hmem
      · subst he
        have hrmeq : rmk = rm := by
          rw [hrm] at hrmk
          exact Option.some_inj.mp hrmk.symm
        have hcmeq : cmk = cm := by
          rw [hcm] at hcmk
          exact Option.some_inj.mp hcmk.symm
        rw [hrmeq, hcmeq, hout k hnd.1]
        show assocGet (pre ++ (k, { rm with signals := cm.signals }) :: post) k = _
        exact assocGet_mid_self pre post k _ hpre
      · exact hin k hmem rmk cmk hrmk hcmk

/-- C1 (amended) — For a raw/cleaned model pair with equal,
duplicate-free, well-formed message-id lists whose paired messages
keep their sender lists, their signal names (duplicate-free, in
order), the two multiplex attributes and the `(start_bit, length)`
bit locators (pairwise distinct within each message),
`apply_patch raw (generate_patch raw cleaned)` rewrites every signal
of every message exactly to its cleaned counterpart — in particular
every field of the diffed field list ends equal to its value in
`cleaned`, while ids, names, senders and all other message attributes
stay those of `raw`.  (Without the locator conditions the original
claim fails: see the counterexample, where two signals sharing a
`(start_bit, length)` locator make the locator-addressed update land
on the wrong signal.) -/
theorem update_roundtrip (ref_db : ReferenceDB) (raw cleaned : DBCModel)
    (hkeys : (raw.messages.map (·.1)).Nodup)
    (hrel : List.Forall₂ msgStable raw.messages cleaned.messages) :
    (apply_patch ref_db raw (generate_patch raw cleaned)).new_model.messages =
      List.zipWith (fun p q => (p.1, { p.2 with signals := q.2.signals }))
        raw.messages cleaned.messages ∧
    (apply_patch ref_db raw (generate_patch raw cleaned)).new_model.version =
      raw.version ∧
    (apply_patch ref_db raw (generate_patch raw cleaned)).new_model.nodes =
      raw.nodes := by
  have hkeys' : (raw.messages.map Prod.fst).Nodup := hkeys
  have hmodel : (apply_patch ref_db raw (generate_patch raw cleaned)).new_model =
      applyRules ref_db raw ((sortedSet (raw.messages.map (·.1))).flatMap
        (groupRules raw cleaned)) := by
    rw [show (apply_patch ref_db raw (generate_patch raw cleaned)).new_model =
        applyRules ref_db raw (generate_patch raw cleaned).rules from
      foldl_apply_step_model ref_db (generate_patch raw cleaned).rules { model := raw }]
    rw [generate_patch_update raw cleaned hkeys' hrel]
  obtain ⟨⟨hkeysF, hver, hnodes⟩, hout, hin⟩ :=
    applyRules_groups ref_db raw cleaned hkeys' hrel
      (sortedSet (raw.messages.map (·.1))) (sortedSet_nodup _)
      (fun i hi => (mem_sortedSet _ _).mp hi) raw rfl (fun _ _ => rfl)
  refine ⟨?_, by rw [hmodel]; exact hver, by rw [hmodel]; exact hnodes⟩
  rw [hmodel]
  refine assoc_ext _ _ ?_ ?_ ?_
  · rw [hkeysF, zip_target_keys hrel]
  · rw [hkeysF]
    exact hkeys'
  · intro k hkmem
    rw [hkeysF] at hkmem
    have hkS : k ∈ sortedSet (raw.messages.map (·.1)) :=
      (mem_sortedSet _ _).mpr hkmem
    obtain ⟨rm, hrm⟩ := assocGet_isSome_of_mem_keys raw.messages k hkmem
    obtain ⟨cm, hcm, -, -, -, -, -⟩ := assocGet_msgStable hrel k rm hrm
    rw [hin k hkS rm cm hrm hcm, assocGet_zip_target hrel k rm cm hrm hcm]

def c1wSig : DBCSignal :=
  { name := "V", start_bit := 0, length := 8, byte_order := "intel", is_signed := false,
    scale := 1, offset := 0, minimum := none, maximum := none, unit := none,
    comment := none }

def c1wSigClean : DBCSignal := { c1wSig with scale := 2, unit := some "km/h" }

def c1wRawMsg : DBCMessage :=
  { message_id := 5, name := "W", length := 8, signals := [c1wSig] }

def c1wCleanMsg : DBCMessage := { c1wRawMsg with signals := [c1wSigClean] }

def c1wRaw : DBCModel := { messages := [(5, c1wRawMsg)] }

def c1wClean : DBCModel := { messages := [(5, c1wCleanMsg)] }

/-- Witness for C1's amended round-trip theorem at a concrete pair of
one-message models differing in `scale` and `unit`. -/
theorem update_roundtrip_witness :
    (apply_patch {} c1wRaw (generate_patch c1wRaw c1wClean)).new_model.messages =
      List.zipWith (fun p q => (p.1, { p.2 with signals := q.2.signals }))
        c1wRaw.messages c1wClean.messages ∧
    (apply_patch {} c1wRaw (generate_patch c1wRaw c1wClean)).new_model.version =
      c1wRaw.version ∧
    (apply_patch {} c1wRaw (generate_patch c1wRaw c1wClean)).new_model.nodes =
      c1wRaw.nodes :=
  update_roundtrip {} c1wRaw c1wClean (by decide)
    (List.Forall₂.cons
      ⟨rfl, rfl, rfl, by decide, by decide,
        List.Forall₂.cons ⟨rfl, rfl, rfl, rfl, rfl⟩ List.Forall₂.nil⟩
      List.Forall₂.nil)

def c1sigS : DBCSignal :=
  { name := "S", start_bit := 0, length := 8, byte_order := "intel", is_signed := false,
    scale := 1, offset := 0, minimum := none, maximum := none, unit := none,
    comment := none }

def c1sigB : DBCSignal := { c1sigS with name := "B", byte_order := "motorola" }

def c1rawMsg : DBCMessage :=
  { message_id := 1, name := "M", length := 8, signals := [c1sigS, c1sigB] }

def c1cleanMsg : DBCMessage :=
  { c1rawMsg with signals := [c1sigS, { c1sigB with scale := 2 }] }

def c1raw : DBCModel := { messages := [(1, c1rawMsg)] }

def c1clean : DBCModel := { messages := [(1, c1cleanMsg)] }

/-- C1 counterexample — the pair `c1raw`/`c1clean` satisfies every
premise of the original claim (same message ids, same signal names,
same senders, and only `scale` — a listed field — differs), yet the
round trip corrupts signal `"S"`: the generated `update_signal` rule
addresses signal `"B"` by the `(start_bit, length)` locator that both
signals share, `_find_signal_by_match` resolves it to the FIRST
match `"S"`, and `"S"` ends with `scale = 2` although `cleaned` keeps
`scale = 1` for it. -/
theorem update_roundtrip_counterexample :
    (c1raw.messages.map (·.1) = c1clean.messages.map (·.1) ∧
     sigNames c1rawMsg.signals = sigNames c1cleanMsg.signals ∧
     c1rawMsg.senders = c1cleanMsg.senders ∧
     c1rawMsg.signals.length = c1cleanMsg.signals.length ∧
     (∀ p ∈ c1rawMsg.signals.zip c1cleanMsg.signals,
       p.1.name = p.2.name ∧ p.1.multiplex = p.2.multiplex ∧
       p.1.multiplexer_ids = p.2.multiplexer_ids)) ∧
    ((apply_patch {} c1raw (generate_patch c1raw c1clean)).new_model.getMsg 1).bind
        (fun m => (sigByName m.signals "S").map (fun s => s.scale)) = some 2 ∧
    (c1clean.getMsg 1).bind
        (fun m => (sigByName m.signals "S").map (fun s => s.scale)) = some 1 := by
  decide

end DBCPatcher
